import Mathlib

/-!
Verification model of the incremental build-graph configuration and
node-identity core of the vendored dbt snapshot: the node `same_contents`
change-detection comparators (`dbt/contracts/graph/nodes.py`), the manifest
artifact versioning and upgrade pass (`dbt/contracts/util.py`), and the
runtime configuration resolver (`dbt/config/runtime.py`).

Python dicts are modelled as association lists (`Obj`), dynamically typed
JSON-ish values as `JVal`, and functions that can raise as `Except String`.
-/

namespace Dbt

/-- A JSON-ish dynamically typed value, as stored in manifest dictionaries. -/
inductive JVal where
  | null : JVal
  | boolv : Bool → JVal
  | num : Int → JVal
  | str : String → JVal
  | arr : List JVal → JVal
  | obj : List (String × JVal) → JVal

/-- A Python dict with string keys, modelled as an insertion-ordered
association list (keys are unique in any dict produced by Python). -/
abbrev Obj := List (String × JVal)

/-- Python `d.get(key)` / `d[key]`: value at the first matching key. -/
def Obj.get? : Obj → String → Option JVal
  | [], _ => none
  | (k, v) :: rest, key => if k = key then some v else Obj.get? rest key

/-- Python `key in d`. -/
def Obj.hasKey (o : Obj) (k : String) : Bool :=
  (o.get? k).isSome

/-- Python `del d[key]` / `d.pop(key)` (removal part): drop the key. -/
def Obj.erase (o : Obj) (k : String) : Obj :=
  o.filter (fun p => p.1 ≠ k)

/-- Python `d[key] = v`: update the value in place if the key exists,
otherwise append the new key at the end (dict insertion order). -/
def Obj.setKey : Obj → String → JVal → Obj
  | [], k, v => [(k, v)]
  | (k', v') :: rest, k, v =>
      if k' = k then (k, v) :: rest else (k', v') :: Obj.setKey rest k v

/-- Python truthiness `bool(v)` of a JSON-ish value. -/
def JVal.toBool : JVal → Bool
  | .null => false
  | .boolv b => b
  | .num n => n ≠ 0
  | .str s => s ≠ ""
  | .arr xs => !xs.isEmpty
  | .obj xs => !xs.isEmpty

/-- Python `v == s` for a dynamically typed `v` against a string literal:
true exactly when `v` is that string. -/
def JVal.eqStr : JVal → String → Bool
  | .str t, s => t = s
  | _, _ => false


/-! ### Generic string-keyed dicts for typed values

Configuration dicts (`unrendered_config`, column-description maps) hold
arbitrary values that the modelled code only ever compares for equality;
they are modelled generically over a value type with decidable equality. -/

/-- Python `d.get(key)` on a dict with values of type `V`. -/
def dget? {V : Type} : List (String × V) → String → Option V
  | [], _ => none
  | (k, v) :: rest, key => if k = key then some v else dget? rest key

/-- Python dict equality `d1 == d2`: same key set and equal value at every
key (insertion order does not matter). -/
def dictEq {V : Type} [DecidableEq V] (a b : List (String × V)) : Bool :=
  a.all (fun p => decide (dget? b p.1 = dget? a p.1)) &&
  b.all (fun p => decide (dget? a p.1 = dget? b p.1))

/-! ### dbt/contracts/graph/nodes.py : node identity and change detection -/

/-- File content hash carried by every parsed node.

Modelled from the spec: `FileHash` lives in `dbt/contracts/files.py`, which is
not part of the snapshot. Per §3, a checksum is "content hash of source text,
or a path-based fallback when content exceeds a size threshold": a `name`
(hash kind, the sentinel kind being `"path"`) and the hash `checksum` string,
compared field-by-field (Python dataclass equality). -/
structure FileHash where
  name : String
  checksum : String
  deriving DecidableEq

/-- A pre/post hook carried in a node config; only its SQL text is consulted
by the modelled code.

Modelled from the spec: the `Hook` class lives in `model_config.py`, which is
not part of the snapshot; §4.2 speaks of "the offending hook statements"
(their SQL bodies). -/
structure Hook where
  sql : String
  deriving DecidableEq

/-- Node configuration, restricted to the parts the modelled comparators
consult: the `persist_docs` sub-dict and the pre/post hook lists.

Modelled from the spec: `NodeConfig`/`SeedConfig` live in `model_config.py`,
which is not part of the snapshot. -/
structure NodeConfig where
  persist_docs : Obj := []
  pre_hook : List Hook := []
  post_hook : List Hook := []

/-- Modelled from the spec: `BaseConfig.same_contents` lives in
`model_config.py`, which is not part of the snapshot. Per §4.1, configs are
"compared via unrendered config dict equality", so `same_contents` of a
config against an old config is equality of the two unrendered config
dicts. -/
def configSameContents {V : Type} [DecidableEq V]
    (unrendered otherUnrendered : List (String × V)) : Bool :=
  dictEq unrendered otherUnrendered

/-- Column metadata (`ColumnInfo`); only the description is consulted by the
comparators. -/
structure ColumnInfo where
  name : String
  description : String := ""

/-- `ParsedNode` (and thereby `CompiledNode`, which inherits `same_contents`
unchanged): the fields consulted by the change-detection comparators, plus
the identity fields of `BaseNode`/`GraphNode`. `V` is the type of the
dynamically typed values of `unrendered_config`. -/
structure ParsedNode (V : Type) where
  name : String
  resource_type : String
  package_name : String
  path : String
  original_file_path : String
  unique_id : String
  fqn : List String
  «alias» : String
  checksum : FileHash
  config : NodeConfig := {}
  description : String := ""
  columns : List (String × ColumnInfo) := []
  unrendered_config : List (String × V) := []
  raw_code : String := ""

namespace ParsedNode

/-- `ParsedNode._persist_relation_docs`: `bool(config.persist_docs.get("relation"))`. -/
def persistRelationDocs {V : Type} (n : ParsedNode V) : Bool :=
  match n.config.persist_docs.get? "relation" with
  | some v => v.toBool
  | none => false

/-- `ParsedNode._persist_column_docs`: `bool(config.persist_docs.get("columns"))`. -/
def persistColumnDocs {V : Type} (n : ParsedNode V) : Bool :=
  match n.config.persist_docs.get? "columns" with
  | some v => v.toBool
  | none => false

/-- `{k: v.description for k, v in self.columns.items()}`. -/
def columnDescriptions {V : Type} (n : ParsedNode V) : List (String × String) :=
  n.columns.map (fun p => (p.1, p.2.description))

/-- `ParsedNode.same_persisted_description`. -/
def samePersistedDescription {V : Type} (n other : ParsedNode V) : Bool :=
  if n.persistRelationDocs && !(decide (n.description = other.description)) then
    false
  else if n.persistColumnDocs &&
      !(dictEq n.columnDescriptions other.columnDescriptions) then
    false
  else
    true

/-- `ParsedNode.same_body`: raw body text equality. -/
def sameBody {V : Type} (n other : ParsedNode V) : Bool :=
  decide (n.raw_code = other.raw_code)

/-- `ParsedNode.same_database_representation`: compares the configured
(unrendered) `database`/`schema`/`alias` values. -/
def sameDatabaseRepresentation {V : Type} [DecidableEq V]
    (n other : ParsedNode V) : Bool :=
  ["database", "schema", "alias"].all
    (fun key => decide (dget? n.unrendered_config key = dget? other.unrendered_config key))

/-- `ParsedNode.same_config`. -/
def sameConfig {V : Type} [DecidableEq V] (n old : ParsedNode V) : Bool :=
  configSameContents n.unrendered_config old.unrendered_config

/-- `GraphNode.same_fqn`. -/
def sameFqn {V : Type} (n other : ParsedNode V) : Bool :=
  decide (n.fqn = other.fqn)

/-- `ParsedNode.same_contents`: `None` means the node is brand new and is
always reported changed. -/
def sameContents {V : Type} [DecidableEq V]
    (n : ParsedNode V) (old : Option (ParsedNode V)) : Bool :=
  match old with
  | none => false
  | some old =>
      n.sameBody old && n.sameConfig old && n.samePersistedDescription old &&
        n.sameFqn old && n.sameDatabaseRepresentation old && true

end ParsedNode

/-- The four seed-comparison warning-class events from `dbt/events/types.py`
that `SeedNode.same_seeds` can pass to `warn_or_error`. -/
inductive SeedEvent where
  | seedIncreased (package_name name : String)
  | seedExceedsLimitSamePath (package_name name : String)
  | seedExceedsLimitAndPathChanged (package_name name : String)
  | seedExceedsLimitChecksumChanged (package_name name checksum_name : String)
  deriving DecidableEq

/-- `MacroDependsOn`: macro dependency list with add-if-absent semantics. -/
structure MacroDependsOn where
  macros : List String := []

/-- Seed configuration: the hook lists consulted by
`_disallow_implicit_dependencies` (plus `persist_docs`, inherited).

Modelled from the spec: `SeedConfig` lives in `model_config.py`, which is not
part of the snapshot. -/
structure SeedConfig where
  persist_docs : Obj := []
  pre_hook : List Hook := []
  post_hook : List Hook := []

/-- `SeedNode`: a `ParsedNode` variant (no SQL body); the fields consulted by
`same_seeds` and `_disallow_implicit_dependencies`. -/
structure SeedNode where
  name : String
  resource_type : String := "seed"
  package_name : String
  path : String
  original_file_path : String
  unique_id : String
  fqn : List String
  «alias» : String
  checksum : FileHash
  config : SeedConfig := {}
  root_path : Option String := none
  depends_on : MacroDependsOn := {}

/-- Python `sep.join(strings)`. -/
def strJoin (sep : String) : List String → String
  | [] => ""
  | [x] => x
  | x :: y :: ys => x ++ sep ++ strJoin sep (y :: ys)

namespace SeedNode

/-- `SeedNode.same_seeds`, with the `warn_or_error` side effects made
explicit: returns the boolean result together with the list of warning-class
events emitted during the call, in order. -/
def sameSeeds (n other : SeedNode) : Bool × List SeedEvent :=
  let result := decide (n.checksum = other.checksum)
  if n.checksum.name = "path" then
    if other.checksum.name ≠ "path" then
      (result, [.seedIncreased n.package_name n.name])
    else if result then
      (result, [.seedExceedsLimitSamePath n.package_name n.name])
    else if !result then
      (result, [.seedExceedsLimitAndPathChanged n.package_name n.name])
    else
      (result,
        [.seedExceedsLimitChecksumChanged n.package_name n.name
          other.checksum.name])
  else
    (result, [])

/-- `SeedNode.depends_on_nodes`: always the empty list. -/
def dependsOnNodes (_ : SeedNode) : List String := []

/-- A single-quote character, for reproducing the Python error text. -/
def squote : String := String.singleton (Char.ofNat 39)

/-- The per-hook lines of `_disallow_implicit_dependencies`:
`[f'- pre_hook: "{hook.sql}"' for hook in self.config.pre_hook] +
[f'- post_hook: "{hook.sql}"' for hook in self.config.post_hook]`. -/
def hookLines (n : SeedNode) : List String :=
  n.config.pre_hook.map (fun h => "- pre_hook: \"" ++ h.sql ++ "\"") ++
    n.config.post_hook.map (fun h => "- post_hook: \"" ++ h.sql ++ "\"")

/-- The message built by `SeedNode._disallow_implicit_dependencies` before it
raises `ParsingError`. -/
def disallowMessage (n : SeedNode) : String :=
  "\nSeeds cannot depend on other nodes. dbt detected a seed with a pre- or post-hook\nthat calls "
    ++ squote ++ "ref" ++ squote ++ ", " ++ squote ++ "source" ++ squote
    ++ ", or " ++ squote ++ "metric" ++ squote
    ++ ", either directly or indirectly via other macros.\n\nError raised for "
    ++ squote ++ n.unique_id ++ squote
    ++ ", which has these hooks defined: \n" ++ strJoin "\n" n.hookLines
    ++ "\n        "

/-- The `SeedNode.refs` property: always raises `ParsingError` (via
`_disallow_implicit_dependencies`) with the message above; `Except.error`
carries the raised message. The `sources` and `metrics` properties behave
identically. -/
def refs (n : SeedNode) : Except String (List (List String)) :=
  .error n.disallowMessage

/-- The `SeedNode.sources` property. -/
def sourcesProp (n : SeedNode) : Except String (List (List String)) :=
  .error n.disallowMessage

/-- The `SeedNode.metrics` property. -/
def metricsProp (n : SeedNode) : Except String (List (List String)) :=
  .error n.disallowMessage

end SeedNode

/-- `GenericTestNode`: the fields consulted by its `same_contents` override
(config via unrendered config, and fqn), plus the raw body, which the
override deliberately ignores. -/
structure GenericTestNode (V : Type) where
  name : String
  resource_type : String := "test"
  package_name : String
  unique_id : String
  fqn : List String
  unrendered_config : List (String × V) := []
  raw_code : String := ""

namespace GenericTestNode

/-- `GenericTestNode.same_config` (inherited from `ParsedNode.same_config`). -/
def sameConfig {V : Type} [DecidableEq V] (n old : GenericTestNode V) : Bool :=
  configSameContents n.unrendered_config old.unrendered_config

/-- `GraphNode.same_fqn`. -/
def sameFqn {V : Type} (n other : GenericTestNode V) : Bool :=
  decide (n.fqn = other.fqn)

/-- `GenericTestNode.same_contents`: config and fqn only. -/
def sameContents {V : Type} [DecidableEq V]
    (n : GenericTestNode V) (other : Option (GenericTestNode V)) : Bool :=
  match other with
  | none => false
  | some other => n.sameConfig other && n.sameFqn other && true

end GenericTestNode

/-- `SourceDefinition`: the fields consulted by its comparators. `quoting`,
`freshness` and `external` metadata are only ever compared for equality and
are modelled as opaque comparable values of type `V` (their classes live in
`unparsed.py`, which is not part of the snapshot). -/
structure SourceDefinition (V : Type) where
  name : String
  resource_type : String := "source"
  package_name : String
  unique_id : String
  fqn : List String
  database : Option String := none
  schema : String
  identifier : String
  quoting : V
  loaded_at_field : Option String := none
  freshness : Option V := none
  «external» : Option V := none
  unrendered_config : List (String × V) := []

namespace SourceDefinition

/-- `SourceDefinition.same_database_representation`. -/
def sameDatabaseRepresentation {V : Type} [DecidableEq V]
    (n other : SourceDefinition V) : Bool :=
  decide (n.database = other.database) && decide (n.schema = other.schema) &&
    decide (n.identifier = other.identifier) && true

/-- `SourceDefinition.same_quoting`. -/
def sameQuoting {V : Type} [DecidableEq V] (n other : SourceDefinition V) : Bool :=
  decide (n.quoting = other.quoting)

/-- `SourceDefinition.same_freshness`. -/
def sameFreshness {V : Type} [DecidableEq V] (n other : SourceDefinition V) : Bool :=
  decide (n.freshness = other.freshness) &&
    decide (n.loaded_at_field = other.loaded_at_field) && true

/-- `SourceDefinition.same_external`. -/
def sameExternal {V : Type} [DecidableEq V] (n other : SourceDefinition V) : Bool :=
  decide (n.external = other.external)

/-- `SourceDefinition.same_config`. -/
def sameConfig {V : Type} [DecidableEq V] (n old : SourceDefinition V) : Bool :=
  configSameContents n.unrendered_config old.unrendered_config

/-- `GraphNode.same_fqn`. -/
def sameFqn {V : Type} (n other : SourceDefinition V) : Bool :=
  decide (n.fqn = other.fqn)

/-- `SourceDefinition.same_contents`: a source that is new (`old is None`) is
treated as unchanged. -/
def sameContents {V : Type} [DecidableEq V]
    (n : SourceDefinition V) (old : Option (SourceDefinition V)) : Bool :=
  match old with
  | none => true
  | some old =>
      n.sameDatabaseRepresentation old && n.sameFqn old && n.sameConfig old &&
        n.sameQuoting old && n.sameFreshness old && n.sameExternal old && true

end SourceDefinition

/-- `Exposure`: the fields consulted by its comparators; `owner` and
`maturity` are only compared for equality and are modelled as opaque
comparable values. -/
structure Exposure (V : Type) where
  name : String
  resource_type : String := "exposure"
  package_name : String
  unique_id : String
  fqn : List String
  type : V
  owner : V
  description : String := ""
  label : Option String := none
  maturity : Option V := none
  url : Option String := none
  depends_on_nodes : List String := []
  unrendered_config : List (String × V) := []

namespace Exposure

/-- `Exposure.same_depends_on`: set equality of the dependency id lists. -/
def sameDependsOn {V : Type} (n old : Exposure V) : Bool :=
  n.depends_on_nodes.all (fun x => x ∈ old.depends_on_nodes) &&
    old.depends_on_nodes.all (fun x => x ∈ n.depends_on_nodes)

/-- `Exposure.same_contents`: a brand-new exposure is treated as unchanged. -/
def sameContents {V : Type} [DecidableEq V]
    (n : Exposure V) (old : Option (Exposure V)) : Bool :=
  match old with
  | none => true
  | some old =>
      decide (n.fqn = old.fqn) && decide (n.type = old.type) &&
        decide (n.owner = old.owner) && decide (n.maturity = old.maturity) &&
        decide (n.url = old.url) && decide (n.description = old.description) &&
        decide (n.label = old.label) && n.sameDependsOn old &&
        configSameContents n.unrendered_config old.unrendered_config && true

end Exposure

/-- `Metric`: the fields consulted by its comparators; `window` and `filters`
are only compared for equality and are modelled as opaque comparable
values. -/
structure Metric (V : Type) where
  name : String
  resource_type : String := "metric"
  package_name : String
  unique_id : String
  fqn : List String
  description : String
  label : String
  calculation_method : String
  expression : String
  filters : List V := []
  time_grains : List String := []
  dimensions : List String := []
  timestamp : Option String := none
  window : Option V := none
  model : Option String := none
  unrendered_config : List (String × V) := []

namespace Metric

/-- `Metric.same_contents`: a brand-new metric is treated as unchanged. -/
def sameContents {V : Type} [DecidableEq V]
    (n : Metric V) (old : Option (Metric V)) : Bool :=
  match old with
  | none => true
  | some old =>
      decide (n.model = old.model) && decide (n.window = old.window) &&
        decide (n.dimensions = old.dimensions) &&
        decide (n.filters = old.filters) &&
        decide (n.description = old.description) &&
        decide (n.label = old.label) &&
        decide (n.calculation_method = old.calculation_method) &&
        decide (n.expression = old.expression) &&
        decide (n.timestamp = old.timestamp) &&
        decide (n.time_grains = old.time_grains) &&
        configSameContents n.unrendered_config old.unrendered_config && true

end Metric

/-! ### dbt/contracts/util.py : artifact versioning and the manifest upgrade -/

/-- `BASE_SCHEMAS_URL`. -/
def BASE_SCHEMAS_URL : String := "https://schemas.getdbt.com/"

/-- `SchemaVersion`: a schema name plus integer version. -/
structure SchemaVersion where
  name : String
  version : Nat
  deriving DecidableEq

/-- `SchemaVersion.path`: `SCHEMA_PATH.format(...)` =
`dbt/{name}/v{version}.json`. -/
def SchemaVersion.path (sv : SchemaVersion) : String :=
  "dbt/" ++ sv.name ++ "/v" ++ toString sv.version ++ ".json"

/-- `str(SchemaVersion)`: the full schema URL. -/
def SchemaVersion.toStr (sv : SchemaVersion) : String :=
  BASE_SCHEMAS_URL ++ sv.path

/-- Python `str(v)`. For containers the rendering is abbreviated; the
modelled code only compares the result against schema URL strings, which
contain no brackets or braces, so the abbreviation is never observable. -/
def JVal.pyStr : JVal → String
  | .null => "None"
  | .boolv true => "True"
  | .boolv false => "False"
  | .num n => toString n
  | .str s => s
  | .arr _ => "[...]"
  | .obj _ => "\x7b...\x7d"

/-- A persisted manifest artifact dict, with the sections consulted by
`upgrade_manifest_json` as typed fields (a section absent from the JSON is
the empty dict, matching `manifest.get(section, {})`); the node/metric/...
contents themselves stay dynamically typed dicts. -/
structure Manifest where
  metadata : Obj := []
  nodes : List (String × Obj) := []
  disabled : List (String × List Obj) := []
  metrics : List (String × Obj) := []
  exposures : List (String × Obj) := []
  sources : List (String × Obj) := []
  macros : List (String × Obj) := []
  docs : List (String × Obj) := []

/-- The first block of `rename_sql_attr`:
`if "raw_sql" in node_content: node_content["raw_code"] = node_content.pop("raw_sql")`. -/
def renameRawSql (nc : Obj) : Obj :=
  match nc.get? "raw_sql" with
  | some v => (nc.erase "raw_sql").setKey "raw_code" v
  | none => nc

/-- The second block of `rename_sql_attr`: `compiled_sql`→`compiled_code`. -/
def renameCompiledSql (nc : Obj) : Obj :=
  match nc.get? "compiled_sql" with
  | some v => (nc.erase "compiled_sql").setKey "compiled_code" v
  | none => nc

/-- `rename_sql_attr(node_content)`: `raw_sql`→`raw_code`,
`compiled_sql`→`compiled_code`, and set `language` to `"sql"`. -/
def rename_sql_attr (nc : Obj) : Obj :=
  (renameCompiledSql (renameRawSql nc)).setKey "language" (JVal.str "sql")

/-- `upgrade_node_content(node_content)`: rename the SQL attrs, then drop
`root_path` on non-seeds. Reading a missing `resource_type` key raises
(`KeyError`). -/
def upgrade_node_content (nc : Obj) : Except String Obj :=
  let nc := rename_sql_attr nc
  match nc.get? "resource_type" with
  | none => .error "KeyError: resource_type"
  | some rt =>
      if !(rt.eqStr "seed") && nc.hasKey "root_path" then
        .ok (nc.erase "root_path")
      else .ok nc

/-- The compilation-related attributes removed from seeds by
`upgrade_seed_content`. -/
def seedRemoveAttrs : List String :=
  ["language", "refs", "sources", "metrics", "compiled_path", "compiled",
    "compiled_code", "extra_ctes_injected", "extra_ctes", "relation_name"]

/-- One iteration of the `upgrade_seed_content` loop body: delete the
attribute when present, then `node_content.get("depends_on", {}).pop("nodes",
None)` (which raises when `depends_on` holds a non-dict value). -/
def seedAttrStep (nc : Obj) (attr_name : String) : Except String Obj :=
  let nc := if nc.hasKey attr_name then nc.erase attr_name else nc
  match nc.get? "depends_on" with
  | none => .ok nc
  | some (.obj d) => .ok (nc.setKey "depends_on" (JVal.obj (Obj.erase d "nodes")))
  | some (.null) => .error "AttributeError: pop"
  | some (.boolv _) => .error "AttributeError: pop"
  | some (.num _) => .error "AttributeError: pop"
  | some (.str _) => .error "AttributeError: pop"
  | some (.arr _) => .error "AttributeError: pop"

/-- The `for attr_name in (...)` loop of `upgrade_seed_content`. -/
def seedAttrLoop : Obj → List String → Except String Obj
  | nc, [] => .ok nc
  | nc, a :: rest =>
      match seedAttrStep nc a with
      | .error e => .error e
      | .ok nc1 => seedAttrLoop nc1 rest

/-- `upgrade_seed_content(node_content)`. -/
def upgrade_seed_content (nc : Obj) : Except String Obj :=
  seedAttrLoop nc seedRemoveAttrs

/-- The per-node-content body of the `upgrade_manifest_json` loops over
`nodes` and `disabled`: `upgrade_node_content`, then `upgrade_seed_content`
when `node_content["resource_type"] == "seed"`. -/
def upgradeNodeFull (nc : Obj) : Except String Obj :=
  match upgrade_node_content nc with
  | .error e => .error e
  | .ok nc =>
      match nc.get? "resource_type" with
      | none => .error "KeyError: resource_type"
      | some rt => if rt.eqStr "seed" then upgrade_seed_content nc else .ok nc

/-- The `"sql"` block of `rename_metric_attr`: `sql` renames to `expression`,
raising when both are present. -/
def metricSqlStep (data : Obj) : Except String Obj :=
  match data.get? "sql" with
  | none => .ok data
  | some v =>
      if data.hasKey "expression" then
        .error "ValidationError: both sql and expression present"
      else .ok ((data.erase "sql").setKey "expression" v)

/-- The `"type"` block of `rename_metric_attr`: `type` renames to
`calculation_method`, raising when both are present. -/
def metricTypeStep (data : Obj) : Except String Obj :=
  match data.get? "type" with
  | none => .ok data
  | some v =>
      if data.hasKey "calculation_method" then
        .error "ValidationError: both type and calculation_method present"
      else .ok ((data.erase "type").setKey "calculation_method" v)

/-- The value translation of `rename_metric_attr`:
`type: expression` became `calculation_method: derived`. -/
def metricDerivedStep (data : Obj) : Obj :=
  match data.get? "calculation_method" with
  | none => data
  | some v =>
      if v.eqStr "expression" then
        data.setKey "calculation_method" (JVal.str "derived")
      else data

/-- `rename_metric_attr(data)` as called from `upgrade_manifest_json`
(`raise_deprecation_warning` is left at its default `False`, so the
deprecation branch is skipped; `data["name"]` still raises `KeyError` when
absent). -/
def rename_metric_attr (data : Obj) : Except String Obj :=
  match data.get? "name" with
  | none => .error "KeyError: name"
  | some _ =>
      match metricSqlStep data with
      | .error e => .error e
      | .ok d1 =>
          match metricTypeStep d1 with
          | .error e => .error e
          | .ok d2 => .ok (metricDerivedStep d2)

/-- `if "root_path" in content: del content["root_path"]`. -/
def upgradeRootPath (v : Obj) : Obj :=
  if v.hasKey "root_path" then v.erase "root_path" else v

/-- The metric loop body of `upgrade_manifest_json`: rename the metric attrs
then drop `root_path`. -/
def upgradeMetricContent (v : Obj) : Except String Obj :=
  match rename_metric_attr v with
  | .error e => .error e
  | .ok v => .ok (upgradeRootPath v)

/-- The docs loop body of `upgrade_manifest_json`: drop `root_path` and
relabel the resource type to `"doc"`. -/
def upgradeDocContent (v : Obj) : Obj :=
  (upgradeRootPath v).setKey "resource_type" (JVal.str "doc")

/-- Apply a fallible per-content function to every value of a section,
keeping keys (the Python loops mutate `section.values()` in place). -/
def mapValsE (f : Obj → Except String Obj) :
    List (String × Obj) → Except String (List (String × Obj))
  | [] => .ok []
  | (k, v) :: rest =>
      match f v with
      | .error e => .error e
      | .ok v' =>
          match mapValsE f rest with
          | .error e => .error e
          | .ok rest' => .ok ((k, v') :: rest')

/-- Apply a fallible per-content function to every element of a list of
node contents (one `disabled` entry holds several versions of a node). -/
def mapListE (f : Obj → Except String Obj) :
    List Obj → Except String (List Obj)
  | [] => .ok []
  | v :: rest =>
      match f v with
      | .error e => .error e
      | .ok v' =>
          match mapListE f rest with
          | .error e => .error e
          | .ok rest' => .ok (v' :: rest')

/-- Apply `mapListE f` to every value of the `disabled` section. -/
def mapValsListE (f : Obj → Except String Obj) :
    List (String × List Obj) → Except String (List (String × List Obj))
  | [] => .ok []
  | (k, vs) :: rest =>
      match mapListE f vs with
      | .error e => .error e
      | .ok vs' =>
          match mapValsListE f rest with
          | .error e => .error e
          | .ok rest' => .ok ((k, vs') :: rest')

/-- `upgrade_manifest_json(manifest)`. -/
def upgrade_manifest_json (m : Manifest) : Except String Manifest :=
  match mapValsE upgradeNodeFull m.nodes with
  | .error e => .error e
  | .ok nodes =>
      match mapValsListE upgradeNodeFull m.disabled with
      | .error e => .error e
      | .ok disabled =>
          match mapValsE upgradeMetricContent m.metrics with
          | .error e => .error e
          | .ok metrics =>
              .ok { metadata := m.metadata
                    nodes := nodes
                    disabled := disabled
                    metrics := metrics
                    exposures := m.exposures.map (fun p => (p.1, upgradeRootPath p.2))
                    sources := m.sources.map (fun p => (p.1, upgradeRootPath p.2))
                    macros := m.macros.map (fun p => (p.1, upgradeRootPath p.2))
                    docs := m.docs.map (fun p => (p.1, upgradeDocContent p.2)) }

/-- Python single-character `str.split(sep)`: split at every occurrence of
the separator, keeping empty segments. -/
def splitChar (c : Char) : List Char → List (List Char)
  | [] => [[]]
  | x :: xs =>
      if x = c then [] :: splitChar c xs
      else
        match splitChar c xs with
        | [] => [[x]]
        | y :: ys => (x :: y) :: ys

/-- Python `int(ch)` for one character (`ValueError` on a non-digit). -/
def charToDigit (ch : Char) : Except String Nat :=
  if '0' ≤ ch ∧ ch ≤ '9' then .ok (ch.toNat - Char.toNat '0')
  else .error "ValueError: invalid literal for int"

/-- `get_manifest_schema_version(dct)`:
`int(dct["metadata"]["dbt_schema_version"].split(".")[-2][-1])` with a
`ValueError` when the version entry is absent or falsy. A non-string,
non-falsy version value also raises (`.split` on a non-str); the distinct
Python exception kinds are collapsed into `Except.error` messages. -/
def get_manifest_schema_version (m : Manifest) : Except String Nat :=
  match m.metadata.get? "dbt_schema_version" with
  | none => .error "ValueError: Manifest does not have schema version"
  | some (.str s) =>
      if s = "" then .error "ValueError: Manifest does not have schema version"
      else
        match (splitChar '.' s.data).reverse with
        | _ :: seg :: _ =>
            match seg.getLast? with
            | some ch => charToDigit ch
            | none => .error "IndexError: string index out of range"
        | _ => .error "IndexError: list index out of range"
  | some v =>
      if v.toBool then .error "AttributeError: split"
      else .error "ValueError: Manifest does not have schema version"

/-- `VersionedSchema.is_compatible_version(schema_version)` for a class whose
current version is `clsv` and whose `compatible_previous_versions()` returns
`compat`. -/
def is_compatible_version (clsv : SchemaVersion) (compat : List SchemaVersion)
    (schema_version : String) : Bool :=
  schema_version ∈ clsv.toStr :: compat.map (fun sv => sv.toStr)

/-- `VersionedSchema.read_and_check_versions(path)` after the file has been
read and JSON-parsed into `data` (file I/O is external): the metadata
version compatibility check, then the manifest upgrade pass exactly when the
parsed schema version is at most 7. The final `cls.from_dict` is external;
the result is the dict it would receive. -/
def read_and_check_versions (clsv : SchemaVersion)
    (compat : List SchemaVersion) (data : Manifest) : Except String Manifest :=
  let versionCheck : Except String Unit :=
    match data.metadata.get? "dbt_schema_version" with
    | none => .ok ()
    | some previous =>
        if is_compatible_version clsv compat previous.pyStr then .ok ()
        else
          .error ("IncompatibleSchemaError: expected " ++ clsv.toStr ++
            ", found " ++ previous.pyStr)
  match versionCheck with
  | .error e => .error e
  | .ok _ =>
      match get_manifest_schema_version data with
      | .error e => .error e
      | .ok v => if v ≤ 7 then upgrade_manifest_json data else .ok data

/-- The property the spec asserts of the version parse: the parsed value is
the full integer version carried by the URL. (Refuted below: the code keeps
only the last character of the version segment.) -/
def parsedVersionPerSpec (sv : SchemaVersion) : Except String Nat :=
  .ok sv.version

/-- The invariant the seed loop maintains for the `depends_on` entry: absent,
or a dict whose `nodes` key has been popped. -/
def dependsOnPopped (nc : Obj) : Prop :=
  nc.get? "depends_on" = none ∨
    ∃ d, nc.get? "depends_on" = some (JVal.obj d) ∧ Obj.hasKey d "nodes" = false

/-! ### dbt/config/runtime.py : runtime configuration resolution -/

/-- The relation component names iterated by `_project_quoting_dict`
(`for key in ComponentName`), in enumeration order.

Modelled from the spec: `ComponentName` lives in `dbt/contracts/relation.py`,
which is not part of the snapshot; §4.4's quoting keys are
`database`/`schema`/`identifier`. -/
inductive ComponentName where
  | database
  | «schema»
  | identifier
  deriving DecidableEq

/-- The string value of a `ComponentName` enum member (it is a `StrEnum`, so
`key in src` compares against these strings). -/
def ComponentName.toStr : ComponentName → String
  | .database => "database"
  | .«schema» => "schema"
  | .identifier => "identifier"

/-- Enumeration order of `for key in ComponentName`. -/
def componentNames : List ComponentName :=
  [.database, .«schema», .identifier]

/-- An adapter quote policy: one boolean per relation component.

Modelled from the spec: the `Policy` class lives in the adapters package,
which is not part of the snapshot; §4.4, testable property 7. -/
structure Policy where
  database : Bool
  «schema» : Bool
  identifier : Bool
  deriving DecidableEq

/-- `_project_quoting_dict(proj, profile)`: keep exactly the boolean-valued
entries of the profile-translated project quoting dict, keyed by component.
The input `src` is the already-translated dict
(`profile.credentials.translate_aliases(proj.quoting)`). -/
def projectQuotingDict (src : Obj) : List (ComponentName × Bool) :=
  componentNames.foldl
    (fun result key =>
      match src.get? key.toStr with
      | some (.boolv value) => result ++ [(key, value)]
      | some (.null) => result
      | some (.num _) => result
      | some (.str _) => result
      | some (.arr _) => result
      | some (.obj _) => result
      | none => result)
    []

/-- Modelled from the spec: `Policy.replace_dict` lives in the adapters
package, which is not part of the snapshot; §4.4 (a): the default policy
"overridden field-by-field" by the dict entries. -/
def Policy.replaceDict (p : Policy) (d : List (ComponentName × Bool)) : Policy :=
  d.foldl
    (fun p kv =>
      match kv.1 with
      | .database => { p with database := kv.2 }
      | .«schema» => { p with «schema» := kv.2 }
      | .identifier => { p with identifier := kv.2 })
    p

/-- The quoting computation of `RuntimeConfig.from_parts`:
`get_default_quote_policy().replace_dict(_project_quoting_dict(project, profile))`. -/
def resolvedQuoting (defaultPolicy : Policy) (src : Obj) : Policy :=
  defaultPolicy.replaceDict (projectQuotingDict src)

/-- The boolean override described by the spec for one quoting component:
take the dict value when it is a boolean, else keep the default. -/
def boolOverride (dflt : Bool) : Option JVal → Bool
  | some (.boolv b) => b
  | some (.null) => dflt
  | some (.num _) => dflt
  | some (.str _) => dflt
  | some (.arr _) => dflt
  | some (.obj _) => dflt
  | none => dflt

/-- The spec's description of the resolved quoting policy (§4.4 (a)): each
component is the boolean value from the project quoting dict when one is
present, and the adapter default otherwise (non-boolean values are
ignored). -/
def quotingPerSpec (defaultPolicy : Policy) (src : Obj) : Policy :=
  { database := boolOverride defaultPolicy.database (src.get? "database")
    «schema» := boolOverride defaultPolicy.«schema» (src.get? "schema")
    identifier := boolOverride defaultPolicy.identifier (src.get? "identifier") }

/-- `_is_config_used(path, fqns)`: true when some fqn extends the path. -/
def isConfigUsed (path : List String) (fqns : List (List String)) : Bool :=
  fqns.any (fun fqn =>
    decide (path.length ≤ fqn.length) && decide (fqn.take path.length = path))

/-- Python `".".join((resource_type,) + config_path)`. -/
def joinDot (parts : List String) : String :=
  strJoin "." parts

/-- The unused-path computation of `warn_for_unused_resource_config_paths`:
for each resource type, every declared config path not used by any actual
(or disabled) resource fqn, rendered as `type.seg1.seg2...`. Sets
(`PathSet`, `frozenset`) are modelled as lists; `used_fqns | disabled_fqns`
is list concatenation, which `any` treats as the union. -/
def unusedResourceConfigPaths
    (resource_config_paths : List (String × List (List String)))
    (resource_fqns : List (String × List (List String)))
    (disabled : List (List String)) : List String :=
  resource_config_paths.foldl
    (fun acc rt =>
      let used_fqns := (dget? resource_fqns rt.1).getD []
      let fqns := used_fqns ++ disabled
      acc ++ (rt.2.filter (fun config_path => !isConfigUsed config_path fqns)).map
        (fun config_path => joinDot (rt.1 :: config_path)))
    []

/-- `warn_for_unused_resource_config_paths`: emits the
`UnusedResourceConfigPath` warning event (carrying the unused paths) unless
the list is empty. -/
def warnForUnusedResourceConfigPaths
    (resource_config_paths : List (String × List (List String)))
    (resource_fqns : List (String × List (List String)))
    (disabled : List (List String)) : Option (List String) :=
  let unused := unusedResourceConfigPaths resource_config_paths resource_fqns disabled
  if unused.length = 0 then none else some unused

/-- The spec-side characterization of the unused paths (§4.4): per resource
type, exactly the declared paths that are not a prefix of any actual or
disabled resource fqn. -/
def unusedPathsPerSpec
    (resource_config_paths : List (String × List (List String)))
    (resource_fqns : List (String × List (List String)))
    (disabled : List (List String)) : List String :=
  resource_config_paths.foldl
    (fun acc rt =>
      acc ++ (rt.2.filter (fun p =>
        !((dget? resource_fqns rt.1).getD [] ++ disabled).any
          (fun fqn => decide (p <+: fqn)))).map (fun p => joinDot (rt.1 :: p)))
    []

/-- Python `name.startswith("__")`, at the character level. -/
def pyStartsWith (s p : String) : Bool :=
  p.data.isPrefixOf s.data

/-- The state of a `RuntimeConfig` consulted by `load_dependencies`, with
the filesystem listing of the packages install path supplied as data: each
entry is a (name, is_dir) pair. The `dependencies` cache holds the mapping's
keys (the child project values themselves are never consulted by the
modelled control flow). -/
structure RuntimeConfigState where
  project_name : String
  packages : List String
  packages_install_path : String
  install_dir_exists : Bool
  install_dir_entries : List (String × Bool)
  dependencies : Option (List String) := none

/-- `RuntimeConfig._get_project_directories`: the directories under the
install path whose names do not start with `__`. -/
def getProjectDirectories (c : RuntimeConfigState) : List String :=
  if c.install_dir_exists then
    (c.install_dir_entries.filter
      (fun e => e.2 && !(pyStartsWith e.1 "__"))).map (fun e => e.1)
  else []

/-- The fatal errors `load_dependencies` can raise. -/
inductive DepError where
  | uninstalledPackagesFound
      (count_packages_specified count_packages_installed : Nat)
      (packages_install_path : String)
  | nonUniquePackageName (project_name : String)
  deriving DecidableEq

/-- The `for project_name, project in self.load_projects(...)` loop of
`load_dependencies`: add each loaded project under its name, failing on a
duplicate name. -/
def addProjects (all_projects : List String) :
    List String → Except DepError (List String)
  | [] => .ok all_projects
  | name :: rest =>
      if name ∈ all_projects then .error (.nonUniquePackageName name)
      else addProjects (all_projects ++ [name]) rest

/-- `RuntimeConfig.load_dependencies`. Loading a child project reads the
filesystem and renders YAML, so the names of the projects that
`load_projects` would yield are supplied as inputs: `internalLoaded` for the
internal (built-in) package paths and `installedLoaded` for the installed
package directories. -/
def loadDependencies (c : RuntimeConfigState) (base_only : Bool)
    (internalLoaded installedLoaded : List String) :
    Except DepError (List String) :=
  match c.dependencies with
  | some deps => .ok deps
  | none =>
      let all_projects := [c.project_name]
      if base_only then
        addProjects all_projects internalLoaded
      else
        let count_packages_specified := c.packages.length
        let count_packages_installed := (getProjectDirectories c).length
        if count_packages_specified > count_packages_installed then
          .error (.uninstalledPackagesFound count_packages_specified
            count_packages_installed c.packages_install_path)
        else
          addProjects all_projects (internalLoaded ++ installedLoaded)

/-! ### Concrete inputs used by the witness theorems -/

/-- The manifest schema at (two-digit) version 10. -/
def svManifestV10 : SchemaVersion := { name := "manifest", version := 10 }

/-- A persisted manifest stamped with the version-10 schema URL, carrying a
node with the legacy `raw_sql` attribute. -/
def manifestV10 : Manifest :=
  { metadata := [("dbt_schema_version", JVal.str svManifestV10.toStr)]
    nodes := [("model.p.m",
      [("resource_type", JVal.str "model"), ("raw_sql", JVal.str "select 1")])] }

/-- What `read_and_check_versions` actually returns for `manifestV10`: the
upgrade pass ran (it renamed `raw_sql`) even though 10 > 7. -/
def manifestV10Upgraded : Manifest :=
  { metadata := [("dbt_schema_version", JVal.str svManifestV10.toStr)]
    nodes := [("model.p.m",
      [("resource_type", JVal.str "model"), ("raw_code", JVal.str "select 1"),
        ("language", JVal.str "sql")])] }

/-- The manifest schema at version 12 (last digit 2). -/
def svManifestV12 : SchemaVersion := { name := "manifest", version := 12 }

/-- A manifest stamped with the version-12 schema URL. -/
def manifestV12 : Manifest :=
  { metadata := [("dbt_schema_version", JVal.str svManifestV12.toStr)] }

/-- A small not-yet-upgraded manifest: a model with legacy `raw_sql`, a
metric with the legacy `type` attribute set to `"expression"`, and a doc
with an obsolete `root_path`. -/
def legacyManifest : Manifest :=
  { metadata := [("dbt_schema_version",
      JVal.str "https://schemas.getdbt.com/dbt/manifest/v6.json")]
    nodes := [("model.p.m",
      [("resource_type", JVal.str "model"), ("raw_sql", JVal.str "select 1")])]
    metrics := [("metric.p.mm",
      [("name", JVal.str "mm"), ("type", JVal.str "expression")])]
    docs := [("doc.p.d", [("root_path", JVal.str "/tmp/proj")])] }

/-- `legacyManifest` after one run of the upgrade pass. -/
def legacyManifestUpgraded : Manifest :=
  { metadata := [("dbt_schema_version",
      JVal.str "https://schemas.getdbt.com/dbt/manifest/v6.json")]
    nodes := [("model.p.m",
      [("resource_type", JVal.str "model"), ("raw_code", JVal.str "select 1"),
        ("language", JVal.str "sql")])]
    metrics := [("metric.p.mm",
      [("name", JVal.str "mm"), ("calculation_method", JVal.str "derived")])]
    docs := [("doc.p.d", [("resource_type", JVal.str "doc")])] }

/-- A runtime config declaring three packages with only two installed
package directories (plus a `__pycache__` entry that must not count). -/
def mismatchConfig : RuntimeConfigState :=
  { project_name := "root_project"
    packages := ["pkg_one", "pkg_two", "pkg_three"]
    packages_install_path := "dbt_packages"
    install_dir_exists := true
    install_dir_entries :=
      [("pkg_one", true), ("pkg_two", true), ("__pycache__", true),
        ("README.md", false)] }

/-- A below-threshold content hash. -/
def hashSha : FileHash := { name := "sha256", checksum := "abc123" }

/-- Another below-threshold content hash with different content. -/
def hashShaOther : FileHash := { name := "sha256", checksum := "def456" }

/-- A path-sentinel hash (seed grew past the size threshold). -/
def hashPath : FileHash := { name := "path", checksum := "seeds/a.csv" }

/-- Example seed `a` in package `p` with a content hash. -/
def seedContentA : SeedNode :=
  { name := "a", package_name := "p", path := "seeds/a.csv"
    original_file_path := "seeds/a.csv", unique_id := "seed.p.a"
    fqn := ["p", "a"], «alias» := "a", checksum := hashSha }

/-- A second version of the same seed with the identical content hash. -/
def seedContentB : SeedNode :=
  { seedContentA with checksum := hashSha }

/-- A version of the seed whose checksum is the path sentinel. -/
def seedPathA : SeedNode :=
  { seedContentA with checksum := hashPath }

/-- A second path-sentinel version at the same path. -/
def seedPathB : SeedNode :=
  { seedContentA with checksum := hashPath }

/-- An example hook whose SQL contains a `ref(...)` call. -/
def hookRef : Hook := { sql := "insert into audit select count(*) from ref(other_model)" }

/-- A seed carrying `hookRef` as a pre-hook and one post-hook. -/
def seedWithHooks : SeedNode :=
  { seedContentA with
    config := { pre_hook := [hookRef], post_hook := [{ sql := "grant select on a" }] } }

/-- An example generic test. -/
def gtestA : GenericTestNode String :=
  { name := "not_null_a_id", package_name := "p", unique_id := "test.p.not_null_a_id"
    fqn := ["p", "not_null_a_id"]
    unrendered_config := [("severity", "warn")], raw_code := "body one" }

/-- The same generic test with a different raw body only. -/
def gtestB : GenericTestNode String :=
  { gtestA with raw_code := "body two" }

/-! ## Supporting lemmas -/

namespace Obj

theorem get?_setKey_same (o : Obj) (k : String) (v : JVal) :
    (o.setKey k v).get? k = some v := by
  induction o with
  | nil => simp [Obj.setKey, Obj.get?]
  | cons p rest ih =>
      by_cases h : p.1 = k
      · simp [Obj.setKey, h, Obj.get?]
      · simp [Obj.setKey, h, Obj.get?, ih]

theorem get?_setKey_ne (o : Obj) (k k' : String) (v : JVal) (h : k ≠ k') :
    (o.setKey k v).get? k' = o.get? k' := by
  induction o with
  | nil => simp [Obj.setKey, Obj.get?, h]
  | cons p rest ih =>
      by_cases hp : p.1 = k
      · simp [Obj.setKey, hp, Obj.get?, h]
      · simp [Obj.setKey, hp, Obj.get?, ih]

theorem get?_erase_same (o : Obj) (k : String) :
    (o.erase k).get? k = none := by
  induction o with
  | nil => simp [Obj.erase, Obj.get?]
  | cons p rest ih =>
      by_cases hp : p.1 = k
      · simpa [Obj.erase, hp] using ih
      · simpa [Obj.erase, hp, Obj.get?] using ih

theorem get?_erase_ne (o : Obj) (k k' : String) (h : k ≠ k') :
    (o.erase k).get? k' = o.get? k' := by
  have h2 : k' ≠ k := Ne.symm h
  induction o with
  | nil => simp [Obj.erase, Obj.get?]
  | cons p rest ih =>
      simp only [Obj.erase, ne_eq, decide_not] at ih ⊢
      by_cases hp : p.1 = k
      · have hpk : p.1 ≠ k' := by rw [hp]; exact h
        simp [List.filter_cons, hp, Obj.get?, hpk, h, ih]
      · by_cases hq : p.1 = k'
        · simp [List.filter_cons, hp, Obj.get?, hq, h2]
        · simp [List.filter_cons, hp, Obj.get?, hq, ih]

theorem erase_erase_same (o : Obj) (k : String) :
    (o.erase k).erase k = o.erase k := by
  simp [Obj.erase, List.filter_filter]

theorem erase_of_not_hasKey (o : Obj) (k : String) (h : o.hasKey k = false) :
    o.erase k = o := by
  induction o with
  | nil => simp [Obj.erase]
  | cons p rest ih =>
      by_cases hp : p.1 = k
      · exfalso
        simp [Obj.hasKey, Obj.get?, hp] at h
      · have hr : Obj.hasKey rest k = false := by
          simpa [Obj.hasKey, Obj.get?, hp] using h
        simp [Obj.erase, hp]
        simpa [Obj.erase] using ih hr

theorem erase_append (a b : Obj) (k : String) :
    (a ++ b).erase k = a.erase k ++ b.erase k := by
  simp [Obj.erase, List.filter_append]

theorem setKey_of_get?_eq (o : Obj) (k : String) (v : JVal)
    (h : o.get? k = some v) : o.setKey k v = o := by
  induction o with
  | nil => simp [Obj.get?] at h
  | cons p rest ih =>
      by_cases hp : p.1 = k
      · cases p with
        | mk pk pv =>
            simp only at hp
            subst hp
            simp [Obj.get?] at h
            subst h
            simp [Obj.setKey]
      · simp [Obj.get?, hp] at h
        simp [Obj.setKey, hp, ih h]

theorem hasKey_setKey_ne (o : Obj) (k k' : String) (v : JVal) (h : k ≠ k') :
    (o.setKey k v).hasKey k' = o.hasKey k' := by
  simp [Obj.hasKey, get?_setKey_ne o k k' v h]

theorem hasKey_erase_same (o : Obj) (k : String) :
    (o.erase k).hasKey k = false := by
  simp [Obj.hasKey, get?_erase_same]

theorem hasKey_erase_ne (o : Obj) (k k' : String) (h : k ≠ k') :
    (o.erase k).hasKey k' = o.hasKey k' := by
  simp [Obj.hasKey, get?_erase_ne o k k' h]

theorem hasKey_of_get?_eq (o : Obj) (k : String) (v : JVal)
    (h : o.get? k = some v) : o.hasKey k = true := by
  simp [Obj.hasKey, h]

theorem hasKey_of_get?_none (o : Obj) (k : String)
    (h : o.get? k = none) : o.hasKey k = false := by
  simp [Obj.hasKey, h]

theorem get?_eq_none_of_hasKey_false (o : Obj) (k : String)
    (h : o.hasKey k = false) : o.get? k = none := by
  cases hg : o.get? k with
  | none => rfl
  | some v =>
      rw [Obj.hasKey, hg] at h
      simp at h

theorem setKey_of_not_hasKey (o : Obj) (k : String) (v : JVal)
    (h : o.hasKey k = false) : o.setKey k v = o ++ [(k, v)] := by
  induction o with
  | nil => simp [Obj.setKey]
  | cons p rest ih =>
      by_cases hp : p.1 = k
      · exfalso
        simp [Obj.hasKey, Obj.get?, hp] at h
      · have hr : Obj.hasKey rest k = false := by
          simpa [Obj.hasKey, Obj.get?, hp] using h
        simp [Obj.setKey, hp, ih hr]

theorem get?_append_of_some (a b : Obj) (k : String) (v : JVal)
    (h : a.get? k = some v) : (a ++ b).get? k = some v := by
  induction a with
  | nil => simp [Obj.get?] at h
  | cons p rest ih =>
      by_cases hp : p.1 = k
      · simp [Obj.get?, hp] at h ⊢
        exact h
      · simp [Obj.get?, hp] at h ⊢
        exact ih h

theorem get?_append_of_none (a b : Obj) (k : String)
    (h : a.get? k = none) : (a ++ b).get? k = b.get? k := by
  induction a with
  | nil => simp
  | cons p rest ih =>
      by_cases hp : p.1 = k
      · simp [Obj.get?, hp] at h
      · simp [Obj.get?, hp] at h ⊢
        exact ih h

theorem erase_singleton_same (k : String) (v : JVal) :
    Obj.erase [(k, v)] k = [] := by
  simp [Obj.erase]

end Obj

theorem dget?_eq_some_imp_mem {V : Type} (l : List (String × V)) (k : String)
    (v : V) (h : dget? l k = some v) : ∃ p, p ∈ l ∧ p.1 = k := by
  induction l with
  | nil => simp [dget?] at h
  | cons p rest ih =>
      by_cases hp : p.1 = k
      · exact ⟨p, List.mem_cons_self p rest, hp⟩
      · simp only [dget?, hp, if_false] at h
        obtain ⟨q, hq, hqk⟩ := ih h
        exact ⟨q, List.mem_cons_of_mem p hq, hqk⟩

theorem dictEq_refl {V : Type} [DecidableEq V] (a : List (String × V)) :
    dictEq a a = true := by
  simp [dictEq, List.all_eq_true]

theorem dictEq_eq_true_iff {V : Type} [DecidableEq V]
    (a b : List (String × V)) :
    dictEq a b = true ↔ ∀ k, dget? a k = dget? b k := by
  constructor
  · intro h k
    simp only [dictEq, Bool.and_eq_true, List.all_eq_true] at h
    obtain ⟨ha, hb⟩ := h
    cases hak : dget? a k with
    | some v =>
        obtain ⟨p, hp, hpk⟩ := dget?_eq_some_imp_mem a k v hak
        have := ha p hp
        rw [hpk] at this
        simp at this
        rw [this, hak]
    | none =>
        cases hbk : dget? b k with
        | some w =>
            obtain ⟨p, hp, hpk⟩ := dget?_eq_some_imp_mem b k w hbk
            have := hb p hp
            rw [hpk] at this
            simp at this
            rw [hak, hbk] at this
            exact this
        | none => rfl
  · intro h
    simp only [dictEq, Bool.and_eq_true, List.all_eq_true]
    refine ⟨fun p _ => by simp [h p.1], fun p _ => by simp [h p.1]⟩

/-! ### Substring helpers for the seed hook error message -/

theorem infix_append_left_of {α : Type} {l m : List α} (n : List α)
    (h : l <:+: m) : l <:+: n ++ m := by
  obtain ⟨s, t, rfl⟩ := h
  exact ⟨n ++ s, t, by simp⟩

theorem infix_append_right_of {α : Type} {l m : List α} (n : List α)
    (h : l <:+: m) : l <:+: m ++ n := by
  obtain ⟨s, t, rfl⟩ := h
  exact ⟨s, t ++ n, by simp⟩

theorem infix_strJoin (sep : String) (x : String) (l : List String)
    (hx : x ∈ l) : x.data <:+: (strJoin sep l).data := by
  induction l with
  | nil => simp at hx
  | cons y ys ih =>
      cases ys with
      | nil =>
          simp at hx
          subst hx
          exact ⟨[], [], by simp [strJoin]⟩
      | cons z zs =>
          rcases List.mem_cons.mp hx with hxy | hxm
          · subst hxy
            exact ⟨[], sep.data ++ (strJoin sep (z :: zs)).data, by
              simp [strJoin, String.data_append]⟩
          · have := ih hxm
            have h2 : x.data <:+: (y ++ sep).data ++ (strJoin sep (z :: zs)).data :=
              infix_append_left_of _ this
            simpa [strJoin, String.data_append, List.append_assoc] using h2

/-! ## Claim theorems -/

/-- C1: for any executable node `n` (`ParsedNode`; `CompiledNode` inherits the
comparator unchanged), `n.same_contents(n)` is true — a node compared to an
identical copy of itself reports unchanged — and `same_contents(None)` is
false; whereas for `SourceDefinition`, `Exposure` and `Metric`,
`same_contents(None)` is true. -/
theorem claim_C1 (V : Type) [DecidableEq V] :
    (∀ n : ParsedNode V, n.sameContents (some n) = true) ∧
    (∀ n : ParsedNode V, n.sameContents none = false) ∧
    (∀ s : SourceDefinition V, s.sameContents none = true) ∧
    (∀ e : Exposure V, e.sameContents none = true) ∧
    (∀ m : Metric V, m.sameContents none = true) := by
  refine ⟨fun n => ?_, fun n => rfl, fun s => rfl, fun e => rfl, fun m => rfl⟩
  simp [ParsedNode.sameContents, ParsedNode.sameBody, ParsedNode.sameConfig,
    configSameContents, dictEq_refl, ParsedNode.samePersistedDescription,
    ParsedNode.sameFqn, ParsedNode.sameDatabaseRepresentation]

/-- C3: `same_seeds` returns exactly the equality of the two checksums; when
the new version's checksum is not path-typed no warning is emitted, and
whenever it is path-typed a warning-class event is emitted before the result
is returned — in particular `SeedIncreased` when the old checksum was a
content hash. -/
theorem claim_C3 (n other : SeedNode) :
    (n.sameSeeds other).1 = decide (n.checksum = other.checksum) ∧
    (n.checksum.name ≠ "path" → (n.sameSeeds other).2 = []) ∧
    (n.checksum.name = "path" → (n.sameSeeds other).2 ≠ []) ∧
    (n.checksum.name = "path" → other.checksum.name ≠ "path" →
      (n.sameSeeds other).2 = [SeedEvent.seedIncreased n.package_name n.name]) := by
  unfold SeedNode.sameSeeds
  by_cases h1 : n.checksum.name = "path" <;>
    by_cases h2 : other.checksum.name = "path" <;>
    by_cases h3 : n.checksum = other.checksum <;>
    simp [h1, h2, h3]

/-- Witness for C3 at concrete seeds: identical content hashes compare with
no warning, and a content-hash-to-path-sentinel change emits `SeedIncreased`. -/
theorem claim_C3_witness :
    (seedContentA.sameSeeds seedContentB).2 = [] ∧
    (seedPathA.sameSeeds seedContentA).2 = [SeedEvent.seedIncreased "p" "a"] :=
  ⟨(claim_C3 seedContentA seedContentB).2.1 (by decide),
   (claim_C3 seedPathA seedContentA).2.2.2 (by decide) (by decide)⟩

/-- C10: `same_seeds` never emits `SeedExceedsLimitChecksumChanged`; when the
new checksum is path-typed exactly one of `SeedIncreased`,
`SeedExceedsLimitSamePath` or `SeedExceedsLimitAndPathChanged` is emitted
(the final `else` branch is unreachable because `result`/`not result` are
exhaustive). -/
theorem claim_C10 (n other : SeedNode) :
    (∀ p nm c,
      SeedEvent.seedExceedsLimitChecksumChanged p nm c ∉ (n.sameSeeds other).2) ∧
    (n.checksum.name = "path" →
      (n.sameSeeds other).2 = [SeedEvent.seedIncreased n.package_name n.name] ∨
      (n.sameSeeds other).2 =
        [SeedEvent.seedExceedsLimitSamePath n.package_name n.name] ∨
      (n.sameSeeds other).2 =
        [SeedEvent.seedExceedsLimitAndPathChanged n.package_name n.name]) := by
  unfold SeedNode.sameSeeds
  by_cases h1 : n.checksum.name = "path" <;>
    by_cases h2 : other.checksum.name = "path" <;>
    by_cases h3 : n.checksum = other.checksum <;>
    simp [h1, h2, h3]

/-- Witness for C10 at concrete seeds: two path-sentinel versions at the same
path emit exactly `SeedExceedsLimitSamePath`, and no input emits
`SeedExceedsLimitChecksumChanged`. -/
theorem claim_C10_witness :
    ((seedPathA.sameSeeds seedPathB).2 =
        [SeedEvent.seedIncreased "p" "a"] ∨
      (seedPathA.sameSeeds seedPathB).2 =
        [SeedEvent.seedExceedsLimitSamePath "p" "a"] ∨
      (seedPathA.sameSeeds seedPathB).2 =
        [SeedEvent.seedExceedsLimitAndPathChanged "p" "a"]) ∧
    SeedEvent.seedExceedsLimitChecksumChanged "p" "a" "path" ∉
      (seedPathA.sameSeeds seedPathB).2 :=
  ⟨(claim_C10 seedPathA seedPathB).2 (by decide),
   (claim_C10 seedPathA seedPathB).1 "p" "a" "path"⟩

/-- C9: for generic tests with a non-`None` old version, `same_contents` is
true exactly when the unrendered configs are dict-equal and the fqns are
element-wise equal; the raw body is not consulted, so changing only
`raw_code` never changes the comparison result. -/
theorem claim_C9 (V : Type) [DecidableEq V] (n other : GenericTestNode V) :
    (n.sameContents (some other) = true ↔
      ((∀ k, dget? n.unrendered_config k = dget? other.unrendered_config k) ∧
        n.fqn = other.fqn)) ∧
    (∀ rc : String,
      GenericTestNode.sameContents { n with raw_code := rc } (some other) =
        n.sameContents (some other)) := by
  constructor
  · simp [GenericTestNode.sameContents, GenericTestNode.sameConfig,
      configSameContents, dictEq_eq_true_iff, GenericTestNode.sameFqn]
  · intro rc
    rfl

/-- Witness for C9: two concrete generic tests differing only in raw body
compare as unchanged. -/
theorem claim_C9_witness :
    GenericTestNode.sameContents gtestA (some gtestB) = true :=
  (claim_C9 String gtestA gtestB).1.mpr ⟨fun k => rfl, rfl⟩

/-- C7: for a seed with a pre-hook, reading `refs` (likewise `sources` and
`metrics`) raises a parsing error whose message contains the seed's
`unique_id` and the SQL text of every pre- and post-hook; and
`depends_on_nodes` is always empty. -/
theorem claim_C7 (n : SeedNode) (hpre : n.config.pre_hook ≠ []) :
    n.refs = Except.error n.disallowMessage ∧
    n.sourcesProp = Except.error n.disallowMessage ∧
    n.metricsProp = Except.error n.disallowMessage ∧
    n.unique_id.data <:+: n.disallowMessage.data ∧
    (∀ hk ∈ n.config.pre_hook, hk.sql.data <:+: n.disallowMessage.data) ∧
    (∀ hk ∈ n.config.post_hook, hk.sql.data <:+: n.disallowMessage.data) ∧
    n.dependsOnNodes = [] := by
  have hjoin : (strJoin "\n" n.hookLines).data <:+:
      n.disallowMessage.data := by
    simp only [SeedNode.disallowMessage, String.data_append, List.append_assoc]
    iterate 17 apply infix_append_left_of
    exact (List.prefix_append _ _).isInfix
  have huid : n.unique_id.data <:+: n.disallowMessage.data := by
    simp only [SeedNode.disallowMessage, String.data_append, List.append_assoc]
    iterate 14 apply infix_append_left_of
    exact (List.prefix_append _ _).isInfix
  refine ⟨rfl, rfl, rfl, huid, ?_, ?_, rfl⟩
  · intro hk hmem
    have hline : ("- pre_hook: \"" ++ hk.sql ++ "\"") ∈ n.hookLines := by
      simp only [SeedNode.hookLines]
      exact List.mem_append_left _ (List.mem_map_of_mem _ hmem)
    have h1 : hk.sql.data <:+: ("- pre_hook: \"" ++ hk.sql ++ "\"").data :=
      ⟨"- pre_hook: \"".data, "\"".data, by simp [String.data_append]⟩
    exact (h1.trans (infix_strJoin "\n" _ _ hline)).trans hjoin
  · intro hk hmem
    have hline : ("- post_hook: \"" ++ hk.sql ++ "\"") ∈ n.hookLines := by
      simp only [SeedNode.hookLines]
      exact List.mem_append_right _ (List.mem_map_of_mem _ hmem)
    have h1 : hk.sql.data <:+: ("- post_hook: \"" ++ hk.sql ++ "\"").data :=
      ⟨"- post_hook: \"".data, "\"".data, by simp [String.data_append]⟩
    exact (h1.trans (infix_strJoin "\n" _ _ hline)).trans hjoin

theorem isConfigUsed_eq_any_isPrefix (p : List String)
    (fqns : List (List String)) :
    isConfigUsed p fqns = fqns.any (fun f => decide (p <+: f)) := by
  unfold isConfigUsed
  induction fqns with
  | nil => rfl
  | cons f rest ih =>
      simp only [List.any_cons]
      rw [ih]
      congr 1
      by_cases hpf : p <+: f
      · have hle : p.length ≤ f.length := hpf.length_le
        have htake : p = f.take p.length := List.prefix_iff_eq_take.mp hpf
        simp [hle, htake.symm, hpf]
      · by_cases htake : f.take p.length = p
        · exact absurd (List.prefix_iff_eq_take.mpr htake.symm) hpf
        · simp [htake, hpf]

theorem addProjects_ne_uninstalled (loaded : List String) :
    ∀ (acc : List String) (s i : Nat) (p : String),
      addProjects acc loaded ≠
        Except.error (DepError.uninstalledPackagesFound s i p) := by
  induction loaded with
  | nil =>
      intro acc s i p h
      simp [addProjects] at h
  | cons name rest ih =>
      intro acc s i p
      unfold addProjects
      by_cases hm : name ∈ acc
      · simp [hm]
      · simp [hm]
        exact ih _ s i p

/-- C4: the quoting policy resolved by `RuntimeConfig.from_parts` equals the
adapter default overridden field-by-field by exactly the boolean-valued keys
of the profile-translated project quoting dict; non-boolean values leave the
default untouched. In particular an all-true default with
`{"schema": False}` resolves to `{database: True, schema: False,
identifier: True}`, and a non-boolean `"schema"` value changes nothing. -/
theorem claim_C4 (d : Policy) (src : Obj) :
    resolvedQuoting d src = quotingPerSpec d src ∧
    resolvedQuoting ⟨true, true, true⟩ [("schema", JVal.boolv false)] =
      ⟨true, false, true⟩ ∧
    resolvedQuoting ⟨true, true, true⟩ [("schema", JVal.str "maybe")] =
      ⟨true, true, true⟩ := by
  refine ⟨?_, by decide, by decide⟩
  unfold resolvedQuoting quotingPerSpec projectQuotingDict componentNames
    Policy.replaceDict boolOverride
  simp only [List.foldl, ComponentName.toStr]
  repeat' split
  all_goals simp_all

/-- C5: `warn_for_unused_resource_config_paths` reports, per resource type,
exactly the declared config paths that are not a prefix of any actual
(enabled or disabled) resource fqn — prefix matching, not exact matching.
In particular, declared paths `a.b` and `a.c.d` against the single fqn
`("a","b","model1")` flag exactly `models.a.c.d`. -/
theorem claim_C5 (rcp rfqns : List (String × List (List String)))
    (disabled : List (List String)) :
    unusedResourceConfigPaths rcp rfqns disabled =
      unusedPathsPerSpec rcp rfqns disabled ∧
    warnForUnusedResourceConfigPaths
      [("models", [["a", "b"], ["a", "c", "d"]])]
      [("models", [["a", "b", "model1"]])] [] = some ["models.a.c.d"] := by
  constructor
  · unfold unusedResourceConfigPaths unusedPathsPerSpec
    have hstep : ∀ (acc : List String) (rt : String × List (List String)),
        acc ++ (rt.2.filter (fun config_path =>
            !isConfigUsed config_path ((dget? rfqns rt.1).getD [] ++ disabled))).map
          (fun config_path => joinDot (rt.1 :: config_path)) =
        acc ++ (rt.2.filter (fun p =>
            !((dget? rfqns rt.1).getD [] ++ disabled).any
              (fun fqn => decide (p <+: fqn)))).map (fun p => joinDot (rt.1 :: p)) := by
      intro acc rt
      congr 1
      congr 1
      apply List.filter_congr
      intro x _
      rw [isConfigUsed_eq_any_isPrefix]
    have key : ∀ (l : List (String × List (List String))) (acc : List String),
        l.foldl (fun acc rt =>
          acc ++ (rt.2.filter (fun config_path =>
              !isConfigUsed config_path ((dget? rfqns rt.1).getD [] ++ disabled))).map
            (fun config_path => joinDot (rt.1 :: config_path))) acc =
        l.foldl (fun acc rt =>
          acc ++ (rt.2.filter (fun p =>
              !((dget? rfqns rt.1).getD [] ++ disabled).any
                (fun fqn => decide (p <+: fqn)))).map (fun p => joinDot (rt.1 :: p))) acc := by
      intro l
      induction l with
      | nil => intro acc; rfl
      | cons rt rest ih =>
          intro acc
          rw [List.foldl_cons, List.foldl_cons, hstep, ih]
    exact key rcp []
  · decide

/-- C6: with the dependencies cache unset, `load_dependencies(base_only=False)`
raises the package-count-mismatch error — reporting the declared package
count, the installed directory count (names starting with `__` excluded) and
the install path — exactly when the declared count exceeds the installed
count. -/
theorem claim_C6 (c : RuntimeConfigState)
    (internalLoaded installedLoaded : List String)
    (hdep : c.dependencies = none) :
    (c.packages.length > (getProjectDirectories c).length →
      loadDependencies c false internalLoaded installedLoaded =
        Except.error (DepError.uninstalledPackagesFound c.packages.length
          (getProjectDirectories c).length c.packages_install_path)) ∧
    (¬ c.packages.length > (getProjectDirectories c).length →
      ∀ (s i : Nat) (p : String),
        loadDependencies c false internalLoaded installedLoaded ≠
          Except.error (DepError.uninstalledPackagesFound s i p)) := by
  unfold loadDependencies
  rw [hdep]
  constructor
  · intro h
    simp [h]
  · intro h
    simp only [h, if_false, Bool.false_eq_true]
    exact fun s i p => addProjects_ne_uninstalled _ _ s i p

/-- Witness for C6: three declared packages, two installed directories
(`__pycache__` excluded): the error reports `(3, 2, "dbt_packages")`. -/
theorem claim_C6_witness :
    loadDependencies mismatchConfig false [] ["pkg_one", "pkg_two"] =
      Except.error (DepError.uninstalledPackagesFound 3 2 "dbt_packages") :=
  ((claim_C6 mismatchConfig [] ["pkg_one", "pkg_two"] rfl).1 (by decide)).trans
    (by rfl)

/-- Witness for C7 at a concrete seed with a ref-calling pre-hook. -/
theorem claim_C7_witness :
    seedWithHooks.refs = Except.error seedWithHooks.disallowMessage ∧
    seedWithHooks.unique_id.data <:+: seedWithHooks.disallowMessage.data ∧
    hookRef.sql.data <:+: seedWithHooks.disallowMessage.data ∧
    seedWithHooks.dependsOnNodes = [] := by
  have h := claim_C7 seedWithHooks (by decide)
  exact ⟨h.1, h.2.2.2.1, h.2.2.2.2.1 hookRef (by decide), h.2.2.2.2.2.2⟩

/-! ### Lemmas about the manifest upgrade pass (towards idempotence) -/

theorem renameRawSql_get?_raw_sql (nc : Obj) :
    (renameRawSql nc).get? "raw_sql" = none := by
  unfold renameRawSql
  cases h : nc.get? "raw_sql" with
  | none => simp [h]
  | some v =>
      rw [Obj.get?_setKey_ne _ _ _ _ (by decide : "raw_code" ≠ "raw_sql"),
        Obj.get?_erase_same]

theorem renameRawSql_get?_ne (nc : Obj) (k : String)
    (h1 : k ≠ "raw_sql") (h2 : k ≠ "raw_code") :
    (renameRawSql nc).get? k = nc.get? k := by
  unfold renameRawSql
  cases h : nc.get? "raw_sql" with
  | none => rfl
  | some v =>
      rw [Obj.get?_setKey_ne _ _ _ _ (Ne.symm h2),
        Obj.get?_erase_ne _ _ _ (Ne.symm h1)]

theorem renameRawSql_stable (nc : Obj) (h : nc.get? "raw_sql" = none) :
    renameRawSql nc = nc := by
  unfold renameRawSql
  rw [h]

theorem renameCompiledSql_get?_compiled_sql (nc : Obj) :
    (renameCompiledSql nc).get? "compiled_sql" = none := by
  unfold renameCompiledSql
  cases h : nc.get? "compiled_sql" with
  | none => simp [h]
  | some v =>
      rw [Obj.get?_setKey_ne _ _ _ _ (by decide : "compiled_code" ≠ "compiled_sql"),
        Obj.get?_erase_same]

theorem renameCompiledSql_get?_ne (nc : Obj) (k : String)
    (h1 : k ≠ "compiled_sql") (h2 : k ≠ "compiled_code") :
    (renameCompiledSql nc).get? k = nc.get? k := by
  unfold renameCompiledSql
  cases h : nc.get? "compiled_sql" with
  | none => rfl
  | some v =>
      rw [Obj.get?_setKey_ne _ _ _ _ (Ne.symm h2),
        Obj.get?_erase_ne _ _ _ (Ne.symm h1)]

theorem renameCompiledSql_stable (nc : Obj) (h : nc.get? "compiled_sql" = none) :
    renameCompiledSql nc = nc := by
  unfold renameCompiledSql
  rw [h]

theorem rename_sql_attr_get?_raw_sql (nc : Obj) :
    (rename_sql_attr nc).get? "raw_sql" = none := by
  unfold rename_sql_attr
  rw [Obj.get?_setKey_ne _ _ _ _ (by decide : "language" ≠ "raw_sql"),
    renameCompiledSql_get?_ne _ _ (by decide) (by decide),
    renameRawSql_get?_raw_sql]

theorem rename_sql_attr_get?_compiled_sql (nc : Obj) :
    (rename_sql_attr nc).get? "compiled_sql" = none := by
  unfold rename_sql_attr
  rw [Obj.get?_setKey_ne _ _ _ _ (by decide : "language" ≠ "compiled_sql"),
    renameCompiledSql_get?_compiled_sql]

theorem rename_sql_attr_get?_language (nc : Obj) :
    (rename_sql_attr nc).get? "language" = some (JVal.str "sql") := by
  unfold rename_sql_attr
  rw [Obj.get?_setKey_same]

theorem rename_sql_attr_get?_ne (nc : Obj) (k : String)
    (h1 : k ≠ "raw_sql") (h2 : k ≠ "raw_code") (h3 : k ≠ "compiled_sql")
    (h4 : k ≠ "compiled_code") (h5 : k ≠ "language") :
    (rename_sql_attr nc).get? k = nc.get? k := by
  unfold rename_sql_attr
  rw [Obj.get?_setKey_ne _ _ _ _ (Ne.symm h5),
    renameCompiledSql_get?_ne _ _ h3 h4, renameRawSql_get?_ne _ _ h1 h2]

theorem rename_sql_attr_stable (nc : Obj)
    (h1 : nc.get? "raw_sql" = none) (h2 : nc.get? "compiled_sql" = none)
    (h3 : nc.get? "language" = some (JVal.str "sql")) :
    rename_sql_attr nc = nc := by
  unfold rename_sql_attr
  rw [renameRawSql_stable _ h1, renameCompiledSql_stable _ h2,
    Obj.setKey_of_get?_eq _ _ _ h3]

theorem upgrade_node_content_post (nc nc₁ : Obj)
    (h : upgrade_node_content nc = .ok nc₁) :
    nc₁.get? "raw_sql" = none ∧ nc₁.get? "compiled_sql" = none ∧
    nc₁.get? "language" = some (JVal.str "sql") ∧
    nc₁.get? "resource_type" = (rename_sql_attr nc).get? "resource_type" ∧
    (∀ rt, nc₁.get? "resource_type" = some rt → rt.eqStr "seed" = false →
      nc₁.hasKey "root_path" = false) := by
  simp only [upgrade_node_content] at h
  cases hrt : (rename_sql_attr nc).get? "resource_type" with
  | none => rw [hrt] at h; exact absurd h (by simp)
  | some rt =>
      rw [hrt] at h
      dsimp only [] at h
      by_cases hc : (!(rt.eqStr "seed") && (rename_sql_attr nc).hasKey "root_path") = true
      · rw [if_pos hc] at h
        have hnc : nc₁ = (rename_sql_attr nc).erase "root_path" := by
          cases h; rfl
        subst hnc
        refine ⟨?_, ?_, ?_, ?_, ?_⟩
        · rw [Obj.get?_erase_ne _ _ _ (by decide), rename_sql_attr_get?_raw_sql]
        · rw [Obj.get?_erase_ne _ _ _ (by decide), rename_sql_attr_get?_compiled_sql]
        · rw [Obj.get?_erase_ne _ _ _ (by decide), rename_sql_attr_get?_language]
        · rw [Obj.get?_erase_ne _ _ _ (by decide)]
          exact hrt
        · intro rt' _ _
          exact Obj.hasKey_erase_same _ _
      · rw [if_neg hc] at h
        have hnc : nc₁ = rename_sql_attr nc := by cases h; rfl
        subst hnc
        refine ⟨rename_sql_attr_get?_raw_sql nc, rename_sql_attr_get?_compiled_sql nc,
          rename_sql_attr_get?_language nc, hrt, ?_⟩
        intro rt' hrt' hseed
        rw [hrt] at hrt'
        cases hrt'
        simp only [Bool.and_eq_true, Bool.not_eq_eq_eq_not, Bool.not_true] at hc
        by_cases hk : (rename_sql_attr nc).hasKey "root_path" = true
        · exact absurd ⟨hseed, hk⟩ hc
        · exact Bool.eq_false_iff.mpr hk

theorem upgrade_node_content_stable (nc : Obj) (rt : JVal)
    (h1 : nc.get? "raw_sql" = none) (h2 : nc.get? "compiled_sql" = none)
    (h3 : nc.get? "language" = some (JVal.str "sql"))
    (h4 : nc.get? "resource_type" = some rt)
    (h5 : rt.eqStr "seed" = false → nc.hasKey "root_path" = false) :
    upgrade_node_content nc = .ok nc := by
  simp only [upgrade_node_content]
  rw [rename_sql_attr_stable nc h1 h2 h3, h4]
  by_cases hseed : rt.eqStr "seed" = true
  · simp [hseed]
  · have := h5 (Bool.eq_false_iff.mpr hseed)
    simp [this]

theorem seedAttrStep_post (nc nc₁ : Obj) (a : String)
    (ha : a ≠ "depends_on") (h : seedAttrStep nc a = .ok nc₁) :
    nc₁.hasKey a = false ∧
    (∀ k, k ≠ a → k ≠ "depends_on" → nc₁.get? k = nc.get? k) ∧
    dependsOnPopped nc₁ := by
  simp only [seedAttrStep] at h
  set nc0 := if nc.hasKey a = true then nc.erase a else nc with hnc0
  have hkey : nc0.hasKey a = false := by
    rw [hnc0]
    by_cases hk : nc.hasKey a = true
    · simp [hk, Obj.hasKey_erase_same]
    · simp [hk]
  have hpres : ∀ k, k ≠ a → nc0.get? k = nc.get? k := by
    intro k hka
    rw [hnc0]
    by_cases hk : nc.hasKey a = true
    · simp [hk, Obj.get?_erase_ne _ _ _ (Ne.symm hka)]
    · simp [hk]
  cases hd : nc0.get? "depends_on" with
  | none =>
      rw [hd] at h
      injection h with h2
      subst h2
      exact ⟨hkey, fun k hka _ => hpres k hka, Or.inl hd⟩
  | some v =>
      cases v with
      | obj d =>
          rw [hd] at h
          injection h with h2
          subst h2
          refine ⟨?_, ?_, ?_⟩
          · rw [Obj.hasKey_setKey_ne _ _ _ _ (Ne.symm ha)]
            exact hkey
          · intro k hka hkd
            rw [Obj.get?_setKey_ne _ _ _ _ (Ne.symm hkd)]
            exact hpres k hka
          · exact Or.inr ⟨Obj.erase d "nodes",
              Obj.get?_setKey_same _ _ _, Obj.hasKey_erase_same _ _⟩
      | null => rw [hd] at h; exact absurd h (by simp)
      | boolv b => rw [hd] at h; exact absurd h (by simp)
      | num n => rw [hd] at h; exact absurd h (by simp)
      | str s => rw [hd] at h; exact absurd h (by simp)
      | arr l => rw [hd] at h; exact absurd h (by simp)

theorem seedAttrStep_stable (nc : Obj) (a : String)
    (hk : nc.hasKey a = false) (hd : dependsOnPopped nc) :
    seedAttrStep nc a = .ok nc := by
  simp only [seedAttrStep, hk]
  simp only [Bool.false_eq_true, if_false]
  rcases hd with hd | ⟨d, hd, hdn⟩
  · rw [hd]
  · rw [hd]
    dsimp only []
    rw [Obj.erase_of_not_hasKey d "nodes" hdn, Obj.setKey_of_get?_eq _ _ _ hd]

theorem seedAttrLoop_post (l : List String) :
    ∀ (nc nc' : Obj), "depends_on" ∉ l → seedAttrLoop nc l = .ok nc' →
      (∀ a, a ∈ l → nc'.hasKey a = false) ∧
      (∀ k, k ∉ l → k ≠ "depends_on" → nc'.get? k = nc.get? k) ∧
      (l ≠ [] → dependsOnPopped nc') := by
  induction l with
  | nil =>
      intro nc nc' _ h
      cases h
      exact ⟨fun a ha => absurd ha (List.not_mem_nil a), fun k _ _ => rfl,
        fun h => absurd rfl h⟩
  | cons a rest ih =>
      intro nc nc' hd h
      have had : a ≠ "depends_on" := fun he => hd (he ▸ List.mem_cons_self a rest)
      have hrd : "depends_on" ∉ rest := fun he => hd (List.mem_cons_of_mem a he)
      simp only [seedAttrLoop] at h
      cases hstep : seedAttrStep nc a with
      | error e => rw [hstep] at h; exact absurd h (by simp)
      | ok nc₁ =>
          rw [hstep] at h
          obtain ⟨s1, s2, s3⟩ := seedAttrStep_post nc nc₁ a had hstep
          obtain ⟨p1, p2, p3⟩ := ih nc₁ nc' hrd h
          refine ⟨?_, ?_, ?_⟩
          · intro a' ha'
            rcases List.mem_cons.mp ha' with rfl | hmem
            · by_cases hm : a' ∈ rest
              · exact p1 a' hm
              · rw [Obj.hasKey, p2 a' hm had]
                rw [Obj.hasKey] at s1
                exact s1
            · exact p1 a' hmem
          · intro k hk hkd
            have hka : k ≠ a := fun he => hk (he ▸ List.mem_cons_self a rest)
            have hkr : k ∉ rest := fun he => hk (List.mem_cons_of_mem a he)
            rw [p2 k hkr hkd, s2 k hka hkd]
          · intro _
            cases hrest : rest with
            | nil =>
                subst hrest
                cases h
                exact s3
            | cons b bs =>
                exact p3 (by simp [hrest])

theorem seedAttrLoop_stable (l : List String) :
    ∀ (nc : Obj), (∀ a, a ∈ l → nc.hasKey a = false) → dependsOnPopped nc →
      seedAttrLoop nc l = .ok nc := by
  induction l with
  | nil => intro nc _ _; rfl
  | cons a rest ih =>
      intro nc hk hd
      simp only [seedAttrLoop]
      rw [seedAttrStep_stable nc a (hk a (List.mem_cons_self a rest)) hd]
      exact ih nc (fun a' ha' => hk a' (List.mem_cons_of_mem a ha')) hd

theorem upgradeNodeFull_stable (nc nc' : Obj)
    (h : upgradeNodeFull nc = .ok nc') : upgradeNodeFull nc' = .ok nc' := by
  simp only [upgradeNodeFull] at h
  cases hu : upgrade_node_content nc with
  | error e => rw [hu] at h; exact absurd h (by simp)
  | ok nc₁ =>
      rw [hu] at h
      dsimp only [] at h
      obtain ⟨f1, f2, f3, _, f5⟩ := upgrade_node_content_post nc nc₁ hu
      cases hrt : nc₁.get? "resource_type" with
      | none => rw [hrt] at h; exact absurd h (by simp)
      | some rt =>
          rw [hrt] at h
          dsimp only [] at h
          by_cases hseed : rt.eqStr "seed" = true
          · rw [if_pos hseed] at h
            simp only [upgrade_seed_content] at h
            have hattrs : seedRemoveAttrs =
                "language" :: ["refs", "sources", "metrics", "compiled_path",
                  "compiled", "compiled_code", "extra_ctes_injected",
                  "extra_ctes", "relation_name"] := rfl
            have hdno : "depends_on" ∉ seedRemoveAttrs := by decide
            obtain ⟨P1, P2, P3⟩ := seedAttrLoop_post seedRemoveAttrs nc₁ nc' hdno h
            have hdp : dependsOnPopped nc' := P3 (by rw [hattrs]; simp)
            have g1 : nc'.get? "raw_sql" = none := by
              rw [P2 "raw_sql" (by decide) (by decide), f1]
            have g2 : nc'.get? "compiled_sql" = none := by
              rw [P2 "compiled_sql" (by decide) (by decide), f2]
            have g3 : nc'.get? "resource_type" = some rt := by
              rw [P2 "resource_type" (by decide) (by decide)]
              exact hrt
            have g4 : nc'.hasKey "language" = false :=
              P1 "language" (by rw [hattrs]; exact List.mem_cons_self _ _)
            have hren : rename_sql_attr nc' =
                nc' ++ [("language", JVal.str "sql")] := by
              unfold rename_sql_attr
              rw [renameRawSql_stable nc' g1, renameCompiledSql_stable nc' g2,
                Obj.setKey_of_not_hasKey nc' _ _ g4]
            have hrt2 : (nc' ++ [("language", JVal.str "sql")]).get? "resource_type" =
                some rt := Obj.get?_append_of_some _ _ _ _ g3
            have hstep : seedAttrStep (nc' ++ [("language", JVal.str "sql")])
                "language" = .ok nc' := by
              simp only [seedAttrStep]
              have hk : (nc' ++ [("language", JVal.str "sql")]).hasKey "language" = true := by
                rw [Obj.hasKey,
                  Obj.get?_append_of_none _ _ _ (Obj.get?_eq_none_of_hasKey_false _ _ g4)]
                simp [Obj.get?]
              rw [hk]
              have her : (nc' ++ [("language", JVal.str "sql")]).erase "language" = nc' := by
                rw [Obj.erase_append, Obj.erase_of_not_hasKey nc' _ g4,
                  Obj.erase_singleton_same]
                simp
              simp only [if_true]
              rw [her]
              rcases hdp with hd | ⟨d, hd, hdn⟩
              · rw [hd]
              · rw [hd]
                dsimp only []
                rw [Obj.erase_of_not_hasKey d _ hdn, Obj.setKey_of_get?_eq _ _ _ hd]
            simp only [upgradeNodeFull, upgrade_node_content]
            rw [hren, hrt2]
            dsimp only []
            rw [hseed]
            simp only [Bool.not_true, Bool.false_and, Bool.false_eq_true, if_false]
            rw [hrt2]
            dsimp only []
            rw [hseed]
            simp only [if_true]
            simp only [upgrade_seed_content]
            rw [hattrs]
            simp only [seedAttrLoop]
            rw [hstep]
            exact seedAttrLoop_stable _ nc'
              (fun a ha => P1 a (by rw [hattrs]; exact List.mem_cons_of_mem _ ha)) hdp
          · rw [if_neg hseed] at h
            injection h with h2
            subst h2
            simp only [upgradeNodeFull]
            rw [upgrade_node_content_stable nc₁ rt f1 f2 f3 hrt
              (fun hf => f5 rt hrt hf)]
            dsimp only []
            rw [hrt]
            dsimp only []
            rw [if_neg hseed]

theorem metricSqlStep_post (d d1 : Obj) (h : metricSqlStep d = .ok d1) :
    d1.hasKey "sql" = false ∧
    (∀ k, k ≠ "sql" → k ≠ "expression" → d1.get? k = d.get? k) := by
  simp only [metricSqlStep] at h
  cases hs : d.get? "sql" with
  | none =>
      rw [hs] at h
      injection h with h2
      subst h2
      exact ⟨Obj.hasKey_of_get?_none _ _ hs, fun k _ _ => rfl⟩
  | some v =>
      rw [hs] at h
      dsimp only [] at h
      by_cases he : d.hasKey "expression" = true
      · rw [if_pos he] at h
        exact absurd h (by simp)
      · rw [if_neg he] at h
        injection h with h2
        subst h2
        constructor
        · rw [Obj.hasKey_setKey_ne _ _ _ _ (by decide), Obj.hasKey_erase_same]
        · intro k hk1 hk2
          rw [Obj.get?_setKey_ne _ _ _ _ (Ne.symm hk2),
            Obj.get?_erase_ne _ _ _ (Ne.symm hk1)]

theorem metricSqlStep_stable (d : Obj) (h : d.get? "sql" = none) :
    metricSqlStep d = .ok d := by
  simp only [metricSqlStep, h]

theorem metricTypeStep_post (d d1 : Obj) (h : metricTypeStep d = .ok d1) :
    d1.hasKey "type" = false ∧
    (∀ k, k ≠ "type" → k ≠ "calculation_method" → d1.get? k = d.get? k) := by
  simp only [metricTypeStep] at h
  cases hs : d.get? "type" with
  | none =>
      rw [hs] at h
      injection h with h2
      subst h2
      exact ⟨Obj.hasKey_of_get?_none _ _ hs, fun k _ _ => rfl⟩
  | some v =>
      rw [hs] at h
      dsimp only [] at h
      by_cases he : d.hasKey "calculation_method" = true
      · rw [if_pos he] at h
        exact absurd h (by simp)
      · rw [if_neg he] at h
        injection h with h2
        subst h2
        constructor
        · rw [Obj.hasKey_setKey_ne _ _ _ _ (by decide), Obj.hasKey_erase_same]
        · intro k hk1 hk2
          rw [Obj.get?_setKey_ne _ _ _ _ (Ne.symm hk2),
            Obj.get?_erase_ne _ _ _ (Ne.symm hk1)]

theorem metricTypeStep_stable (d : Obj) (h : d.get? "type" = none) :
    metricTypeStep d = .ok d := by
  simp only [metricTypeStep, h]

theorem metricDerivedStep_post (d : Obj) :
    (∀ k, k ≠ "calculation_method" → (metricDerivedStep d).get? k = d.get? k) ∧
    (∀ v, (metricDerivedStep d).get? "calculation_method" = some v →
      v.eqStr "expression" = false) := by
  simp only [metricDerivedStep]
  cases hc : d.get? "calculation_method" with
  | none =>
      refine ⟨fun k _ => rfl, fun v hv => ?_⟩
      rw [hc] at hv
      exact Option.noConfusion hv
  | some v0 =>
      dsimp only []
      by_cases hexp : v0.eqStr "expression" = true
      · rw [if_pos hexp]
        refine ⟨fun k hk => Obj.get?_setKey_ne _ _ _ _ (Ne.symm hk), fun v hv => ?_⟩
        rw [Obj.get?_setKey_same] at hv
        injection hv with hv2
        subst hv2
        rfl
      · rw [if_neg hexp]
        refine ⟨fun k _ => rfl, fun v hv => ?_⟩
        rw [hc] at hv
        injection hv with hv2
        subst hv2
        exact Bool.eq_false_iff.mpr hexp

theorem metricDerivedStep_stable (d : Obj)
    (h : ∀ v, d.get? "calculation_method" = some v → v.eqStr "expression" = false) :
    metricDerivedStep d = d := by
  simp only [metricDerivedStep]
  cases hc : d.get? "calculation_method" with
  | none => rfl
  | some v0 =>
      dsimp only []
      rw [h v0 hc]
      simp

theorem rename_metric_attr_post (d d' : Obj)
    (h : rename_metric_attr d = .ok d') :
    (∃ nm, d.get? "name" = some nm ∧ d'.get? "name" = some nm) ∧
    d'.hasKey "sql" = false ∧ d'.hasKey "type" = false ∧
    (∀ v, d'.get? "calculation_method" = some v →
      v.eqStr "expression" = false) := by
  simp only [rename_metric_attr] at h
  cases hn : d.get? "name" with
  | none => rw [hn] at h; exact absurd h (by simp)
  | some nm =>
      rw [hn] at h
      dsimp only [] at h
      cases hs : metricSqlStep d with
      | error e => rw [hs] at h; exact absurd h (by simp)
      | ok d1 =>
          rw [hs] at h
          dsimp only [] at h
          cases ht : metricTypeStep d1 with
          | error e => rw [ht] at h; exact absurd h (by simp)
          | ok d2 =>
              rw [ht] at h
              dsimp only [] at h
              injection h with h2
              subst h2
              obtain ⟨s1, s2⟩ := metricSqlStep_post d d1 hs
              obtain ⟨t1, t2⟩ := metricTypeStep_post d1 d2 ht
              obtain ⟨m1, m2⟩ := metricDerivedStep_post d2
              refine ⟨⟨nm, rfl, ?_⟩, ?_, ?_, m2⟩
              · rw [m1 "name" (by decide), t2 "name" (by decide) (by decide),
                  s2 "name" (by decide) (by decide), hn]
              · rw [Obj.hasKey, m1 "sql" (by decide),
                  t2 "sql" (by decide) (by decide),
                  Obj.get?_eq_none_of_hasKey_false _ _ s1]
                rfl
              · rw [Obj.hasKey, m1 "type" (by decide),
                  Obj.get?_eq_none_of_hasKey_false _ _ t1]
                rfl

theorem rename_metric_attr_stable (d : Obj) (nm : JVal)
    (hn : d.get? "name" = some nm) (hs : d.hasKey "sql" = false)
    (ht : d.hasKey "type" = false)
    (hc : ∀ v, d.get? "calculation_method" = some v →
      v.eqStr "expression" = false) :
    rename_metric_attr d = .ok d := by
  simp only [rename_metric_attr]
  rw [hn]
  dsimp only []
  rw [metricSqlStep_stable d (Obj.get?_eq_none_of_hasKey_false _ _ hs)]
  dsimp only []
  rw [metricTypeStep_stable d (Obj.get?_eq_none_of_hasKey_false _ _ ht)]
  dsimp only []
  rw [metricDerivedStep_stable d hc]

theorem upgradeRootPath_hasKey_root (v : Obj) :
    (upgradeRootPath v).hasKey "root_path" = false := by
  simp only [upgradeRootPath]
  by_cases hk : v.hasKey "root_path" = true
  · rw [if_pos hk]
    exact Obj.hasKey_erase_same _ _
  · rw [if_neg hk]
    exact Bool.eq_false_iff.mpr hk

theorem upgradeRootPath_get?_ne (v : Obj) (k : String) (h : k ≠ "root_path") :
    (upgradeRootPath v).get? k = v.get? k := by
  simp only [upgradeRootPath]
  by_cases hk : v.hasKey "root_path" = true
  · rw [if_pos hk, Obj.get?_erase_ne _ _ _ (Ne.symm h)]
  · rw [if_neg hk]

theorem upgradeRootPath_stable (v : Obj) (h : v.hasKey "root_path" = false) :
    upgradeRootPath v = v := by
  simp [upgradeRootPath, h]

theorem upgradeRootPath_idem (v : Obj) :
    upgradeRootPath (upgradeRootPath v) = upgradeRootPath v :=
  upgradeRootPath_stable _ (upgradeRootPath_hasKey_root v)

theorem upgradeMetricContent_stable (v v' : Obj)
    (h : upgradeMetricContent v = .ok v') :
    upgradeMetricContent v' = .ok v' := by
  simp only [upgradeMetricContent] at h
  cases hr : rename_metric_attr v with
  | error e => rw [hr] at h; exact absurd h (by simp)
  | ok w =>
      rw [hr] at h
      dsimp only [] at h
      injection h with h2
      subst h2
      obtain ⟨⟨nm, _, hwn⟩, p2, p3, p4⟩ := rename_metric_attr_post v w hr
      have g1 : (upgradeRootPath w).get? "name" = some nm := by
        rw [upgradeRootPath_get?_ne _ _ (by decide)]
        exact hwn
      have g2 : (upgradeRootPath w).hasKey "sql" = false := by
        rw [Obj.hasKey, upgradeRootPath_get?_ne _ _ (by decide),
          Obj.get?_eq_none_of_hasKey_false _ _ p2]
        rfl
      have g3 : (upgradeRootPath w).hasKey "type" = false := by
        rw [Obj.hasKey, upgradeRootPath_get?_ne _ _ (by decide),
          Obj.get?_eq_none_of_hasKey_false _ _ p3]
        rfl
      have g4 : ∀ u, (upgradeRootPath w).get? "calculation_method" = some u →
          u.eqStr "expression" = false := by
        intro u hu
        rw [upgradeRootPath_get?_ne _ _ (by decide)] at hu
        exact p4 u hu
      simp only [upgradeMetricContent]
      rw [rename_metric_attr_stable _ nm g1 g2 g3 g4]
      dsimp only []
      rw [upgradeRootPath_idem]

theorem upgradeDocContent_idem (v : Obj) :
    upgradeDocContent (upgradeDocContent v) = upgradeDocContent v := by
  simp only [upgradeDocContent]
  rw [upgradeRootPath_stable ((upgradeRootPath v).setKey "resource_type" (JVal.str "doc"))
      (by rw [Obj.hasKey_setKey_ne _ _ _ _ (by decide)]
          exact upgradeRootPath_hasKey_root v),
    Obj.setKey_of_get?_eq _ _ _ (Obj.get?_setKey_same _ _ _)]

theorem mapValsE_stable (f : Obj → Except String Obj)
    (hf : ∀ v v', f v = .ok v' → f v' = .ok v') :
    ∀ (xs ys : List (String × Obj)), mapValsE f xs = .ok ys →
      mapValsE f ys = .ok ys := by
  intro xs
  induction xs with
  | nil =>
      intro ys h
      injection h with h2
      subst h2
      rfl
  | cons p rest ih =>
      intro ys h
      obtain ⟨k, v⟩ := p
      simp only [mapValsE] at h
      cases hv : f v with
      | error e => rw [hv] at h; exact absurd h (by simp)
      | ok v' =>
          rw [hv] at h
          dsimp only [] at h
          cases hr : mapValsE f rest with
          | error e => rw [hr] at h; exact absurd h (by simp)
          | ok rest' =>
              rw [hr] at h
              dsimp only [] at h
              injection h with h2
              subst h2
              simp only [mapValsE]
              rw [hf v v' hv]
              dsimp only []
              rw [ih rest' hr]

theorem mapListE_stable (f : Obj → Except String Obj)
    (hf : ∀ v v', f v = .ok v' → f v' = .ok v') :
    ∀ (xs ys : List Obj), mapListE f xs = .ok ys → mapListE f ys = .ok ys := by
  intro xs
  induction xs with
  | nil =>
      intro ys h
      injection h with h2
      subst h2
      rfl
  | cons v rest ih =>
      intro ys h
      simp only [mapListE] at h
      cases hv : f v with
      | error e => rw [hv] at h; exact absurd h (by simp)
      | ok v' =>
          rw [hv] at h
          dsimp only [] at h
          cases hr : mapListE f rest with
          | error e => rw [hr] at h; exact absurd h (by simp)
          | ok rest' =>
              rw [hr] at h
              dsimp only [] at h
              injection h with h2
              subst h2
              simp only [mapListE]
              rw [hf v v' hv]
              dsimp only []
              rw [ih rest' hr]

theorem mapValsListE_stable (f : Obj → Except String Obj)
    (hf : ∀ v v', f v = .ok v' → f v' = .ok v') :
    ∀ (xs ys : List (String × List Obj)), mapValsListE f xs = .ok ys →
      mapValsListE f ys = .ok ys := by
  intro xs
  induction xs with
  | nil =>
      intro ys h
      injection h with h2
      subst h2
      rfl
  | cons p rest ih =>
      intro ys h
      obtain ⟨k, vs⟩ := p
      simp only [mapValsListE] at h
      cases hv : mapListE f vs with
      | error e => rw [hv] at h; exact absurd h (by simp)
      | ok vs' =>
          rw [hv] at h
          dsimp only [] at h
          cases hr : mapValsListE f rest with
          | error e => rw [hr] at h; exact absurd h (by simp)
          | ok rest' =>
              rw [hr] at h
              dsimp only [] at h
              injection h with h2
              subst h2
              simp only [mapValsListE]
              rw [mapListE_stable f hf vs vs' hv]
              dsimp only []
              rw [ih rest' hr]

theorem mapRootPath_idem (l : List (String × Obj)) :
    (l.map (fun p => (p.1, upgradeRootPath p.2))).map
        (fun p => (p.1, upgradeRootPath p.2)) =
      l.map (fun p => (p.1, upgradeRootPath p.2)) := by
  induction l with
  | nil => rfl
  | cons p rest ih => simp [upgradeRootPath_idem, ih]

theorem mapDocContent_idem (l : List (String × Obj)) :
    (l.map (fun p => (p.1, upgradeDocContent p.2))).map
        (fun p => (p.1, upgradeDocContent p.2)) =
      l.map (fun p => (p.1, upgradeDocContent p.2)) := by
  induction l with
  | nil => rfl
  | cons p rest ih => simp [upgradeDocContent_idem, ih]

/-- C8: the manifest upgrade pass is idempotent: whenever
`upgrade_manifest_json` succeeds, running it again on its output succeeds
and returns the output unchanged (so already-upgraded data is a fixed point
and never raises). -/
theorem claim_C8 (m m' : Manifest) (h : upgrade_manifest_json m = .ok m') :
    upgrade_manifest_json m' = .ok m' := by
  simp only [upgrade_manifest_json] at h
  cases h1 : mapValsE upgradeNodeFull m.nodes with
  | error e => rw [h1] at h; exact absurd h (by simp)
  | ok nodes =>
      rw [h1] at h
      dsimp only [] at h
      cases h2 : mapValsListE upgradeNodeFull m.disabled with
      | error e => rw [h2] at h; exact absurd h (by simp)
      | ok disabled =>
          rw [h2] at h
          dsimp only [] at h
          cases h3 : mapValsE upgradeMetricContent m.metrics with
          | error e => rw [h3] at h; exact absurd h (by simp)
          | ok metrics =>
              rw [h3] at h
              dsimp only [] at h
              injection h with h4
              subst h4
              simp only [upgrade_manifest_json]
              rw [mapValsE_stable upgradeNodeFull upgradeNodeFull_stable
                m.nodes nodes h1]
              dsimp only []
              rw [mapValsListE_stable upgradeNodeFull upgradeNodeFull_stable
                m.disabled disabled h2]
              dsimp only []
              rw [mapValsE_stable upgradeMetricContent upgradeMetricContent_stable
                m.metrics metrics h3]
              dsimp only []
              rw [mapRootPath_idem, mapRootPath_idem, mapRootPath_idem,
                mapDocContent_idem]

/-! ### Lemmas for the schema-version parse (C2) -/

theorem splitChar_not_mem (c : Char) (xs : List Char) (h : c ∉ xs) :
    splitChar c xs = [xs] := by
  induction xs with
  | nil => rfl
  | cons a as ih =>
      have hac : ¬(a = c) := fun he => h (he ▸ List.mem_cons_self a as)
      have has : c ∉ as := fun he => h (List.mem_cons_of_mem a he)
      simp only [splitChar, if_neg hac, ih has]

theorem splitChar_append (c : Char) (xs ys : List Char) (h : c ∉ xs) :
    splitChar c (xs ++ c :: ys) = xs :: splitChar c ys := by
  induction xs with
  | nil => simp [splitChar]
  | cons a as ih =>
      have hac : ¬(a = c) := fun he => h (he ▸ List.mem_cons_self a as)
      have has : c ∉ as := fun he => h (List.mem_cons_of_mem a he)
      simp only [List.cons_append, splitChar, if_neg hac, List.append_eq, ih has]

theorem digitChar_ne_dot (m : Nat) : Nat.digitChar m ≠ '.' := by
  match m with
  | 0 => decide
  | 1 => decide
  | 2 => decide
  | 3 => decide
  | 4 => decide
  | 5 => decide
  | 6 => decide
  | 7 => decide
  | 8 => decide
  | 9 => decide
  | 10 => decide
  | 11 => decide
  | 12 => decide
  | 13 => decide
  | 14 => decide
  | 15 => decide
  | (n + 16) =>
      delta Nat.digitChar
      simp

theorem toDigitsCore_not_dot (fuel : Nat) :
    ∀ (n : Nat) (ds : List Char), (∀ ch ∈ ds, ch ≠ '.') →
      ∀ ch ∈ Nat.toDigitsCore 10 fuel n ds, ch ≠ '.' := by
  induction fuel with
  | zero => intro n ds hds ch hch; exact hds ch hch
  | succ fuel ih =>
      intro n ds hds ch hch
      simp only [Nat.toDigitsCore] at hch
      by_cases hz : n / 10 = 0
      · rw [if_pos hz] at hch
        rcases List.mem_cons.mp hch with rfl | hm
        · exact digitChar_ne_dot _
        · exact hds ch hm
      · rw [if_neg hz] at hch
        refine ih (n / 10) _ ?_ ch hch
        intro c hc
        rcases List.mem_cons.mp hc with rfl | hm
        · exact digitChar_ne_dot _
        · exact hds c hm

theorem toDigits_not_dot (n : Nat) : '.' ∉ Nat.toDigits 10 n := by
  intro h
  exact toDigitsCore_not_dot (n + 1) n [] (by simp) '.' h rfl

theorem toDigitsCore_getLast? (fuel : Nat) :
    ∀ (n : Nat) (ds : List Char), ds ≠ [] →
      (Nat.toDigitsCore 10 fuel n ds).getLast? = ds.getLast? := by
  induction fuel with
  | zero => intro n ds _; rfl
  | succ fuel ih =>
      intro n ds hds
      simp only [Nat.toDigitsCore]
      by_cases hz : n / 10 = 0
      · rw [if_pos hz]
        cases ds with
        | nil => exact absurd rfl hds
        | cons b bs => exact List.getLast?_cons_cons
      · rw [if_neg hz]
        rw [ih (n / 10) _ (by simp)]
        cases ds with
        | nil => exact absurd rfl hds
        | cons b bs => exact List.getLast?_cons_cons

theorem toDigits_getLast? (n : Nat) :
    (Nat.toDigits 10 n).getLast? = some (Nat.digitChar (n % 10)) := by
  unfold Nat.toDigits
  simp only [Nat.toDigitsCore]
  by_cases hz : n / 10 = 0
  · rw [if_pos hz]
    rfl
  · rw [if_neg hz, toDigitsCore_getLast? n (n / 10) _ (by simp)]
    rfl

theorem toDigits_ne_nil (n : Nat) : Nat.toDigits 10 n ≠ [] := by
  intro h
  have := toDigits_getLast? n
  rw [h] at this
  exact Option.noConfusion this

theorem toString_nat_data (n : Nat) : (toString n).data = Nat.toDigits 10 n := rfl

theorem charToDigit_digitChar (m : Nat) (h : m < 10) :
    charToDigit (Nat.digitChar m) = .ok m := by
  interval_cases m <;> rfl

theorem schemaUrl_data (name : String) (version : Nat) :
    (SchemaVersion.mk name version).toStr.data =
      "https://schemas".data ++ '.' ::
        ("getdbt".data ++ '.' ::
          (("com/dbt/".data ++ name.data ++ "/v".data ++ Nat.toDigits 10 version)
            ++ '.' :: "json".data)) := by
  simp only [SchemaVersion.toStr, SchemaVersion.path, BASE_SCHEMAS_URL,
    String.data_append, toString_nat_data]
  simp [List.append_assoc, List.cons_append]

theorem splitChar_schemaUrl (name : String) (version : Nat)
    (hname : '.' ∉ name.data) :
    splitChar '.' (SchemaVersion.mk name version).toStr.data =
      ["https://schemas".data, "getdbt".data,
        "com/dbt/".data ++ name.data ++ "/v".data ++ Nat.toDigits 10 version,
        "json".data] := by
  rw [schemaUrl_data]
  rw [splitChar_append '.' _ _ (by decide)]
  rw [splitChar_append '.' _ _ (by decide)]
  rw [splitChar_append '.' _ _ ?midfree]
  · rw [splitChar_not_mem '.' _ (by decide)]
  case midfree =>
    intro hmem
    rcases List.mem_append.mp hmem with hmem | hmem
    · rcases List.mem_append.mp hmem with hmem | hmem
      · rcases List.mem_append.mp hmem with hmem | hmem
        · exact absurd hmem (by decide)
        · exact hname hmem
      · exact absurd hmem (by decide)
    · exact toDigits_not_dot version hmem

theorem get_manifest_schema_version_url (data : Manifest) (name : String)
    (version : Nat) (hname : '.' ∉ name.data)
    (hmeta : data.metadata.get? "dbt_schema_version" =
      some (JVal.str (SchemaVersion.mk name version).toStr)) :
    get_manifest_schema_version data = .ok (version % 10) := by
  simp only [get_manifest_schema_version]
  rw [hmeta]
  dsimp only []
  have hne : ¬((SchemaVersion.mk name version).toStr = "") := by
    intro he
    have := congrArg String.data he
    rw [schemaUrl_data] at this
    exact absurd this (by simp)
  rw [if_neg hne, splitChar_schemaUrl name version hname]
  rw [show (["https://schemas".data, "getdbt".data,
      "com/dbt/".data ++ name.data ++ "/v".data ++ Nat.toDigits 10 version,
      "json".data] : List (List Char)).reverse =
    ["json".data,
      "com/dbt/".data ++ name.data ++ "/v".data ++ Nat.toDigits 10 version,
      "getdbt".data, "https://schemas".data] from by simp]
  dsimp only []
  have hlast : ("com/dbt/".data ++ name.data ++ "/v".data ++
      Nat.toDigits 10 version).getLast? =
      some (Nat.digitChar (version % 10)) := by
    rw [List.getLast?_append, toDigits_getLast?]
    rfl
  rw [hlast]
  dsimp only []
  exact charToDigit_digitChar _ (Nat.mod_lt version (by decide))

/-- C2 counterexample: the claim that `read_and_check_versions` parses the
integer schema version out of the URL and upgrades iff that version is ≤ 7
fails at version 10: `int(url.split(".")[-2][-1])` keeps only the last
character of the version segment, so the v10 URL parses as 0 (not 10) and
the upgrade pass runs (it renames the node's `raw_sql`) even though
10 > 7. -/
theorem claim_C2_counterexample :
    get_manifest_schema_version manifestV10 = Except.ok 0 ∧
    ¬ get_manifest_schema_version manifestV10 = Except.ok 10 ∧
    ¬ (10 : Nat) ≤ 7 ∧
    read_and_check_versions svManifestV10 [] manifestV10 =
      Except.ok manifestV10Upgraded ∧
    (dget? manifestV10.nodes "model.p.m").map
      (fun o => o.hasKey "raw_sql") = some true ∧
    (dget? manifestV10Upgraded.nodes "model.p.m").map
      (fun o => o.hasKey "raw_sql") = some false :=
  ⟨by rfl,
   by
    intro h
    rw [show get_manifest_schema_version manifestV10 = Except.ok 0 from rfl] at h
    injection h with h2
    exact absurd h2 (by decide),
   by decide, by rfl, by rfl, by rfl⟩

/-- C2 amended: `read_and_check_versions` parses the LAST DECIMAL DIGIT of
the version carried by the stored `dbt_schema_version` URL (i.e.
`version % 10`, since `[-2][-1]` takes the final character of the version
segment) and applies the manifest upgrade pass iff that digit is ≤ 7; for
single-digit versions 1–9 this coincides with `version ≤ 7` as the spec
describes. -/
theorem claim_C2_amended (name : String) (version : Nat)
    (clsv : SchemaVersion) (compat : List SchemaVersion) (data : Manifest)
    (hname : '.' ∉ name.data)
    (hmeta : data.metadata.get? "dbt_schema_version" =
      some (JVal.str (SchemaVersion.mk name version).toStr))
    (hcompat : is_compatible_version clsv compat
      (SchemaVersion.mk name version).toStr = true) :
    get_manifest_schema_version data = Except.ok (version % 10) ∧
    read_and_check_versions clsv compat data =
      (if version % 10 ≤ 7 then upgrade_manifest_json data
       else Except.ok data) ∧
    (1 ≤ version → version ≤ 9 → (version % 10 ≤ 7 ↔ version ≤ 7)) := by
  have hparse := get_manifest_schema_version_url data name version hname hmeta
  refine ⟨hparse, ?_, ?_⟩
  · simp only [read_and_check_versions, hmeta, JVal.pyStr, hcompat, if_true]
    rw [hparse]
  · intro h1 h9
    rw [Nat.mod_eq_of_lt (by omega)]

/-- Witness for the amended C2: at version 12 the parse yields 2 and the
upgrade pass runs. -/
theorem claim_C2_amended_witness :
    get_manifest_schema_version manifestV12 = Except.ok 2 ∧
    read_and_check_versions svManifestV12 [] manifestV12 =
      upgrade_manifest_json manifestV12 := by
  have h := claim_C2_amended "manifest" 12 svManifestV12 [] manifestV12
    (by decide) (by rfl) (by decide)
  exact ⟨h.1, h.2.1.trans (if_pos (by norm_num))⟩

/-- Witness for C8: a concrete legacy manifest upgrades to
`legacyManifestUpgraded`, and a second run returns it unchanged. -/
theorem claim_C8_witness :
    upgrade_manifest_json legacyManifest = Except.ok legacyManifestUpgraded ∧
    upgrade_manifest_json legacyManifestUpgraded =
      Except.ok legacyManifestUpgraded :=
  have h : upgrade_manifest_json legacyManifest =
      Except.ok legacyManifestUpgraded := by rfl
  ⟨h, claim_C8 legacyManifest legacyManifestUpgraded h⟩

end Dbt
